import Mathlib

/-!
Verification of the molecule-detection core of reacnetgenerator
(`reacnetgenerator/_detect.py`).

The Python source is shallowly embedded: each Python function of the
detection module is translated into an executable Lean definition.
Python exceptions (ValueError, IndexError, UnboundLocalError, ...) are
modelled by `Except String`; the error string carries the kind of the
Python exception and, where the exception message does, the name it
reports.  Python floats are modelled by exact decimals (the literals in
trajectory files are finite decimals) and Python ints by `ℤ`; list
indexing follows Python semantics (negative indices wrap, out-of-range
raises).

Three helpers of the repository (`dps` from `reacnetgenerator/dps.pyx`,
`run_mp` and `listtobytes` from `reacnetgenerator/utils.py`) are not part
of the supplied sources; they are modelled from the specification and
marked as such in their doc comments.
-/

/-- Python `str.split()` with no argument over a list of characters:
split on runs of whitespace, dropping empty pieces. -/
def pySplitChars (cs : List Char) : List String :=
  ((cs.splitOnP (fun c => c.isWhitespace)).filter (fun p => ¬ p.isEmpty)).map
    (fun p => String.mk p)

/-- Python `line.split()`: whitespace tokenisation of a string. -/
def pySplit (s : String) : List String :=
  pySplitChars s.toList

/-- Python `s.startswith(pre)`, via the underlying character lists. -/
def pyStartsWith (s pre : String) : Bool :=
  pre.toList.isPrefixOf s.toList

/-- Digit-string value of a list of decimal digit characters. -/
def digitsVal (cs : List Char) : ℕ :=
  cs.foldl (fun acc c => 10 * acc + (c.toNat - 48)) 0

/-- Whether every character of the list is a decimal digit and the list is
nonempty (Python `str.isdigit` restricted to ASCII digits). -/
def allDigits (cs : List Char) : Bool :=
  ¬ cs.isEmpty ∧ cs.all (fun c => c.isDigit)

/-- Python `int(s)` on a token: optional sign followed by decimal digits;
anything else raises `ValueError`. -/
def pyInt (s : String) : Except String ℤ :=
  match s.toList with
  | '-' :: rest =>
      if allDigits rest then Except.ok (-(digitsVal rest : ℤ))
      else Except.error ("ValueError: invalid literal for int: " ++ s)
  | '+' :: rest =>
      if allDigits rest then Except.ok (digitsVal rest : ℤ)
      else Except.error ("ValueError: invalid literal for int: " ++ s)
  | cs =>
      if allDigits cs then Except.ok (digitsVal cs : ℤ)
      else Except.error ("ValueError: invalid literal for int: " ++ s)

deriving instance DecidableEq for Except

/-- An exactly-represented decimal number `m / 10 ^ e`: the value of a
decimal literal of a trajectory file (Python parses it as a float; the
literals appearing in these files are short enough to be exact). -/
structure Decimal where
  m : ℤ
  e : ℕ
  deriving DecidableEq, Repr

/-- The rational value of a parsed decimal. -/
def Decimal.toRat (d : Decimal) : ℚ :=
  (d.m : ℚ) / (10 : ℚ) ^ d.e

/-- Python `float(s)` on the decimal literals that occur in trajectory
files: optional sign, digits, optional decimal point and digits. -/
def pyFloat (s : String) : Except String Decimal :=
  let core : List Char → Except String Decimal := fun cs =>
    match cs.splitOn '.' with
    | [ip] =>
        if allDigits ip then Except.ok ⟨digitsVal ip, 0⟩
        else Except.error ("ValueError: could not convert string to float: " ++ s)
    | [ip, fp] =>
        if (allDigits ip ∧ fp.all (fun c => c.isDigit)) ∨
            (ip.isEmpty ∧ allDigits fp) then
          Except.ok ⟨digitsVal ip * 10 ^ fp.length + digitsVal fp, fp.length⟩
        else Except.error ("ValueError: could not convert string to float: " ++ s)
    | _ => Except.error ("ValueError: could not convert string to float: " ++ s)
  match s.toList with
  | '-' :: rest => (core rest).map (fun d => ⟨-d.m, d.e⟩)
  | '+' :: rest => core rest
  | cs => core cs

/-- Python 3 `round` to an integer (round half to even), computed on the
exact decimal representation with integer arithmetic. -/
def pyRound (d : Decimal) : ℤ :=
  let D : ℤ := 10 ^ d.e
  let f : ℤ := d.m.fdiv D
  let r : ℤ := d.m - f * D
  if 2 * r < D then f
  else if D < 2 * r then f + 1
  else if f % 2 = 0 then f else f + 1

/-- Python list indexing `l[i]`: negative indices count from the end,
out-of-range raises `IndexError`. -/
def pyGet (l : List α) (i : ℤ) (msg : String) : Except String α :=
  if h : 0 ≤ i ∧ i.toNat < l.length then Except.ok (l.get ⟨i.toNat, h.2⟩)
  else if h2 : i < 0 ∧ (i + l.length).toNat < l.length ∧ 0 ≤ i + l.length then
    Except.ok (l.get ⟨(i + l.length).toNat, h2.2.1⟩)
  else Except.error msg

/-- Python list element assignment `l[i] = a` (wrap-around for negative
indices, `IndexError` when out of range). -/
def pySet (l : List α) (i : ℤ) (a : α) : Except String (List α) :=
  if 0 ≤ i ∧ i.toNat < l.length then Except.ok (l.set i.toNat a)
  else if i < 0 ∧ 0 ≤ i + l.length then Except.ok (l.set (i + l.length).toNat a)
  else Except.error "IndexError: list assignment index out of range"

/-- Python `l[i].append(a)` on a list of lists (wrap-around for negative
indices, `IndexError` when out of range). -/
def pyAppendAt (l : List (List α)) (i : ℤ) (a : α) : Except String (List (List α)) :=
  if h : 0 ≤ i ∧ i.toNat < l.length then
    Except.ok (l.set i.toNat (l.get ⟨i.toNat, h.2⟩ ++ [a]))
  else if h2 : i < 0 ∧ (i + l.length).toNat < l.length ∧ 0 ≤ i + l.length then
    Except.ok (l.set (i + l.length).toNat (l.get ⟨(i + l.length).toNat, h2.2.1⟩ ++ [a]))
  else Except.error "IndexError: list index out of range"

/-- Python slice `l[a:b]` (clamping, never raising). -/
def pySlice (l : List α) (a b : ℕ) : List α :=
  (l.drop a).take (b - a)

/-- The visited mark of atom `i`: an atom beyond the table counts as
visited (it is never treated). -/
def visAt (visited : List Bool) (i : ℕ) : Bool :=
  visited.getD i true

/-- Pop stack entries until the first atom not yet visited; `none` when
the stack empties first.  Out-of-range atoms count as visited. -/
def dfsSkip (visited : List Bool) : List ℕ → Option (ℕ × List ℕ)
  | [] => none
  | a :: rest => if visAt visited a = false then some (a, rest) else dfsSkip visited rest

/-- Modelled from the spec: the depth-first traversal of `dps`
(`reacnetgenerator/dps.pyx`, not under `src/`): an iterative DFS with an
explicit stack that marks atoms visited and collects one connected
component in discovery order.  `b` bounds the number of atoms still to
visit (`b ≥` number of `false` entries suffices; each visit clears one). -/
def dfsA (adj : List (List ℕ)) : ℕ → List ℕ → List Bool → List ℕ → List ℕ × List Bool
  | 0, _, visited, acc => (acc, visited)
  | b + 1, stack, visited, acc =>
      match dfsSkip visited stack with
      | none => (acc, visited)
      | some (a, rest) => dfsA adj b (adj.getD a [] ++ rest) (visited.set a true) (acc ++ [a])

/-- Modelled from the spec: the outer loop of `dps` over candidate roots;
every not-yet-visited root starts a fresh component. -/
def dpsLoop (adj : List (List ℕ)) : List ℕ → List Bool → List (List ℕ) → List (List ℕ) × List Bool
  | [], visited, comps => (comps, visited)
  | r :: roots, visited, comps =>
      if visAt visited r = false then
        let p := dfsA adj (visited.count false) [r] visited []
        dpsLoop adj roots p.2 (comps ++ [p.1])
      else dpsLoop adj roots visited comps

/-- The neighbor list of atom `i` in a bond table whose entries may be
absent (`none` is treated as a zero-neighbor atom, as is an index beyond
the table). -/
def adjOf (bond : List (Option (List ℕ))) (i : ℕ) : List ℕ :=
  (bond.getD i none).getD []

/-- The bond list of one component: for each atom of the component in
discovery order, its recorded (atom, neighbor, order) triples. -/
def compBonds (bond : List (Option (List ℕ))) (level : List (Option (List ℤ)))
    (c : List ℕ) : List (ℕ × ℕ × ℤ) :=
  c.flatMap (fun a => ((adjOf bond a).zip ((level.getD a none).getD [])).map
    (fun p => (a, p.1, p.2)))

/-- Modelled from the spec: `dps` (`reacnetgenerator/dps.pyx`, not under
`src/`): connected-component decomposition of one timestep's bond graph
by iterative depth-first search, returning the molecules (as atom lists)
and, aligned with them, each molecule's bond/order list. -/
def dps (bond : List (Option (List ℕ))) (level : List (Option (List ℤ)))
    : List (List ℕ) × List (List (ℕ × ℕ × ℤ)) :=
  let adj := bond.map (fun o => o.getD [])
  let comps := (dpsLoop adj (List.range adj.length) (List.replicate adj.length false) []).1
  (comps, comps.map (compBonds bond level))

/-- A list of bytes: the currency of the canonical encoder. -/
abbrev Bytes : Type := List ℕ

/-- A four-byte little-endian fixed-width encoding of a number. -/
def encodeFixed (n : ℕ) : List ℕ :=
  [n % 256, n / 256 % 256, n / 65536 % 256, n / 16777216 % 256]

/-- Modelled from the spec: the canonical encoder `listtobytes`
(`reacnetgenerator/utils.py`, not under `src/`): sort the sequence into a
canonical order and concatenate a fixed-width binary encoding of every
entry. -/
def listtobytes (l : List ℕ) : Bytes :=
  (l.insertionSort (· ≤ ·)).flatMap encodeFixed

/-- `_Detect._connectmolecule` (`_detect.py:105-107`): run `dps` and pair
every molecule's canonical atom encoding with its encoded bond list, the
two parts joined by a separating byte (the space of `b' '.join`). -/
def connectmolecule (bond : List (Option (List ℕ))) (level : List (Option (List ℤ)))
    : List Bytes :=
  ((dps bond level).1.zip ((dps bond level).2)).map
    (fun p => listtobytes p.1 ++ [32] ++ listtobytes (p.2.map (fun t => t.2.2.toNat)))


/-- The bond order derived from a mol2 bond-type field
(`_detect.py:285-286`): 12 for an aromatic bond `ar`, 1 for an amide bond
`am`, otherwise the integer value of the field. -/
def mol2Level (t : String) : Except String ℤ :=
  if t = "ar" then Except.ok 12
  else if t = "am" then Except.ok 1
  else pyInt t

/-- Record one oracle bond between final atom indices `a` and `b` with
order `lv` (`_detect.py:283-288`): append each endpoint to the other's
neighbor list and the order to both order lists. -/
def recordPair (st : List (List ℤ) × List (List ℤ)) (a b : ℕ) (lv : ℤ)
    : List (List ℤ) × List (List ℤ) :=
  let b1 := st.1.set a (st.1.getD a [] ++ [(b : ℤ)])
  let b2 := b1.set b (b1.getD b [] ++ [(a : ℤ)])
  let l1 := st.2.set a (st.2.getD a [] ++ [lv])
  let l2 := l1.set b (l1.getD b [] ++ [lv])
  (b2, l2)

/-- One line of the mol2 BOND section (`_detect.py:272-288`): tokenised
line `s`; when it has more than 3 fields, parse the two endpoint ids,
discard a bond between two image atoms, remap a single image endpoint
through `realnumber`, and append the bond and its order symmetrically. -/
def mol2BondLine (atomnumber : ℕ) (realnumber : List ℤ)
    (st : List (List ℤ) × List (List ℤ)) (s : List String)
    : Except String (List (List ℤ) × List (List ℤ)) :=
  if 3 < s.length then do
    let v1 ← pyInt (s.getD 1 "")
    let s1 : ℤ := v1 - 1
    let v2 ← pyInt (s.getD 2 "")
    let s2 : ℤ := v2 - 1
    if (atomnumber : ℤ) ≤ s1 ∧ (atomnumber : ℤ) ≤ s2 then
      Except.ok st
    else do
      let t1 ← if (atomnumber : ℤ) ≤ s1 then
          pyGet realnumber (s1 - atomnumber) "IndexError: index out of bounds"
        else Except.ok s1
      let t2 ← if (atomnumber : ℤ) ≤ s1 then Except.ok s2
        else if (atomnumber : ℤ) ≤ s2 then
          pyGet realnumber (s2 - atomnumber) "IndexError: index out of bounds"
        else Except.ok s2
      let bond1 ← pyAppendAt st.1 t1 t2
      let bond2 ← pyAppendAt bond1 t2 t1
      let lv ← mol2Level (s.getD 3 "")
      let bl1 ← pyAppendAt st.2 t1 lv
      let bl2 ← pyAppendAt bl1 t2 lv
      Except.ok (bond2, bl2)
  else Except.ok st

/-- The mol2 scanning loop of `_getbondfromcrd` (`_detect.py:264-288`):
walk the oracle's mol2 output, enter the bond section at a line starting
with `@<TRIPOS>BOND`, and process every later line through
`mol2BondLine`. -/
def mol2Loop (atomnumber : ℕ) (realnumber : List ℤ)
    : List String → Bool → List (List ℤ) × List (List ℤ) →
      Except String (List (List ℤ) × List (List ℤ))
  | [], _, st => Except.ok st
  | line :: rest, inBond, st =>
      if pyStartsWith line "@<TRIPOS>BOND" then
        mol2Loop atomnumber realnumber rest true st
      else if inBond then do
        let st2 ← mol2BondLine atomnumber realnumber st (pySplit line)
        mol2Loop atomnumber realnumber rest true st2
      else mol2Loop atomnumber realnumber rest false st

/-- `np.where(d < 5)[0]` of `_getbondfromcrd` (`_detect.py:249-252`): the
indices of the periodic-image atoms whose distance to the nearest real
atom is below 5. -/
def keptGhosts (dists : List ℚ) : List ℕ :=
  (List.range dists.length).filter (fun j => decide (dists.getD j 0 < 5))

/-- `realnumber = np.where(nearest)[0] % atomnumber`
(`_detect.py:252`): the real atom index of every kept image atom. -/
def pbcRealnumber (atomnumber : ℕ) (dists : List ℚ) : List ℤ :=
  (keptGhosts dists).map (fun (j : ℕ) => (j : ℤ) % (atomnumber : ℤ))

/-- `_DetectLAMMPSdump._getbondfromcrd` (`_detect.py:240-289`) with
periodic boundaries, downstream of the external collaborators: the
KD-tree query yields `dists` (distance of each repeated image atom to its
nearest real atom) and openbabel yields the mol2 text `mol2lines`; the
function filters the image atoms, builds `realnumber` and accumulates the
symmetric bond graph from the mol2 bond section. -/
def getbondfromcrdPBC (atomnumber : ℕ) (dists : List ℚ) (mol2lines : List String)
    : Except String (List (List ℤ) × List (List ℤ)) :=
  mol2Loop atomnumber (pbcRealnumber atomnumber dists) mol2lines false
    (List.replicate atomnumber [], List.replicate atomnumber [])

/-- The (neighbor, order) pairs recorded for atom `i`. -/
def pairsAt (st : List (List ℤ) × List (List ℤ)) (i : ℕ) : List (ℤ × ℤ) :=
  (st.1.getD i []).zip (st.2.getD i [])

/-- The bond-graph state invariant of `_getbondfromcrd`: both tables have
one entry per real atom, neighbor and order lists pair up, and every
recorded bond is recorded symmetrically with equal order. -/
def SymmState (N : ℕ) (st : List (List ℤ) × List (List ℤ)) : Prop :=
  st.1.length = N ∧ st.2.length = N ∧
  (∀ i : ℕ, (st.1.getD i []).length = (st.2.getD i []).length) ∧
  (∀ a b : ℕ, ∀ l : ℤ,
    (pairsAt st a).count ((b : ℤ), l) = (pairsAt st b).count ((a : ℤ), l))

/-- Well-formedness of the oracle's mol2 bond lines: every line with more
than 3 fields names its endpoints by 1-based atom ids (ids at least 1),
as the mol2 format prescribes. -/
def mol2IdsOK (lines : List String) : Prop :=
  ∀ line ∈ lines, ∀ v : ℤ,
    (pyInt ((pySplit line).getD 1 "") = Except.ok v ∨
     pyInt ((pySplit line).getD 2 "") = Except.ok v) → 1 ≤ v

/-- The per-field bond-order parse of `_DetectLAMMPSbond._readstepfunc`
(`_detect.py:153-154`): `max(1, round(float(x)))`. -/
def parseLevelToken (x : String) : Except String ℤ :=
  (pyFloat x).map (fun d => max 1 (pyRound d))

/-- State of the bond-file step parser: per-atom neighbor and order
tables (`None` until the atom's line is seen) and the `# Timestep`
value (unassigned until its comment line is seen). -/
structure BondStepState where
  bond : List (Option (List ℤ))
  level : List (Option (List ℤ))
  timestep : Option ℤ
  deriving DecidableEq, Repr

/-- One line of a bond-file block (`_detect.py:143-154`): a `# Timestep`
comment sets the timestep; any other comment is skipped; an atom line
`id type nbonds nbr... mol bo...` stores the neighbor ids (0-based) and
the rounded bond orders at slot `id - 1`. -/
def bondStepLine (st : BondStepState) (line : String) : Except String BondStepState :=
  if line = "" then Except.ok st
  else if line.toList.headD ' ' = '#' then
    if pyStartsWith line "# Timestep" then do
      let tok ← pyGet (pySplit line) (-1) "IndexError: list index out of range"
      let t ← pyInt tok
      Except.ok { st with timestep := some t }
    else Except.ok st
  else do
    let s := pySplit line
    let tok0 ← pyGet s 0 "IndexError: list index out of range"
    let v0 ← pyInt tok0
    let tok2 ← pyGet s 2 "IndexError: list index out of range"
    let v2 ← pyInt tok2
    let nbrs ← (pySlice s 3 (3 + v2.toNat)).mapM (fun x => (pyInt x).map (fun v => v - 1))
    let bond2 ← pySet st.bond (v0 - 1) (some nbrs)
    let lvls ← (pySlice s (4 + v2.toNat) (4 + 2 * v2.toNat)).mapM parseLevelToken
    let level2 ← pySet st.level (v0 - 1) (some lvls)
    Except.ok { st with bond := bond2, level := level2 }

/-- `_DetectLAMMPSbond._readstepfunc` (`_detect.py:139-156`), table part:
fold the block's lines into the per-atom bond/order tables and the
timestep (the Python `map` objects are evaluated eagerly here; an error
in a lazy entry surfaces inside the same call in both readings). -/
def bondReadstepArrays (N : ℕ) (lines : List String) : Except String BondStepState :=
  lines.foldlM bondStepLine ⟨List.replicate N none, List.replicate N none, none⟩

/-- Atom indices stored as Python ints, reread as `AtomIndex` (they are
nonnegative in well-formed files). -/
def toNatAdj (bond : List (Option (List ℤ))) : List (Option (List ℕ)) :=
  bond.map (Option.map (fun l => l.map Int.toNat))

/-- `_DetectLAMMPSbond._readstepfunc` (`_detect.py:139-156`): parse one
block, extract the molecules with `_connectmolecule` and return them with
the step number and the block's timestep (an unassigned timestep raises,
as Python's unbound local would). -/
def bondReadstep (N : ℕ) (step : ℕ) (lines : List String)
    : Except String (List Bytes × (ℕ × ℤ)) := do
  let st ← bondReadstepArrays N lines
  match st.timestep with
  | none => Except.error "NameError: local variable timestep referenced before assignment"
  | some t => Except.ok (connectmolecule (toNatAdj st.bond) st.level, (step, t))

/-- Line classification of the LAMMPS dump format
(`_DetectLAMMPSdump.LineType.linecontent`, `_detect.py:160-180`). -/
inductive LineKind where
  | TIMESTEP
  | ATOMS
  | NUMBER
  | BOX
  | OTHER
  deriving DecidableEq, Repr

/-- `LineType.linecontent(line)` (`_detect.py:169-180`). -/
def linecontentOf (line : String) : LineKind :=
  if pyStartsWith line "ITEM: TIMESTEP" then LineKind.TIMESTEP
  else if pyStartsWith line "ITEM: ATOMS" then LineKind.ATOMS
  else if pyStartsWith line "ITEM: NUMBER OF ATOMS" then LineKind.NUMBER
  else if pyStartsWith line "ITEM: BOX" then LineKind.BOX
  else LineKind.OTHER

/-- Python `keys.index(x)`: the position of `x`, `ValueError` naming `x`
when absent. -/
def pyIndexOf (l : List String) (x : String) : Except String ℤ :=
  match l.indexOf? x with
  | some i => Except.ok (i : ℤ)
  | none => Except.error ("ValueError: " ++ x ++ " is not in list")

/-- The column indices of the dump format, located by the header-declared
column names (`_detect.py:188-193`). -/
structure DumpCols where
  idIdx : ℤ
  tIdx : ℤ
  xIdx : ℤ
  yIdx : ℤ
  zIdx : ℤ
  deriving DecidableEq, Repr

/-- The loop state of `_DetectLAMMPSdump._readNfunc` (`_detect.py:182-211`):
Python locals, `none` while unassigned. -/
structure DumpHeaderState where
  iscompleted : Bool
  stepaindex : Option ℕ
  n : Option ℕ
  atomtype : Option (List ℤ)
  cols : Option DumpCols
  lastContent : Option LineKind
  deriving DecidableEq, Repr

/-- The header-scan loop of `_DetectLAMMPSdump._readNfunc`
(`_detect.py:184-208`): walk the lines with their index; the second
`NUMBER OF ATOMS` section ends the scan (`break`) with the block line
count; reaching the end of the file yields `index + 1` lines. -/
def dumpReadNGo : List String → ℕ → DumpHeaderState → Except String (ℕ × DumpHeaderState)
  | [], idx, st =>
      if idx = 0 then
        Except.error "NameError: local variable index referenced before assignment"
      else Except.ok (idx, st)
  | line :: rest, idx, st =>
      if pyStartsWith line "ITEM:" then
        let lc := linecontentOf line
        if lc = LineKind.ATOMS then do
          let keys := pySplit line
          let i1 ← pyIndexOf keys "id"
          let i2 ← pyIndexOf keys "type"
          let i3 ← pyIndexOf keys "x"
          let i4 ← pyIndexOf keys "y"
          let i5 ← pyIndexOf keys "z"
          dumpReadNGo rest (idx + 1)
            { st with cols := some ⟨i1 - 2, i2 - 2, i3 - 2, i4 - 2, i5 - 2⟩,
                      lastContent := some lc }
        else dumpReadNGo rest (idx + 1) { st with lastContent := some lc }
      else
        match st.lastContent with
        | none =>
            Except.error "NameError: local variable linecontent referenced before assignment"
        | some LineKind.NUMBER =>
            if st.iscompleted then
              match st.stepaindex with
              | some ai => Except.ok (idx - ai, st)
              | none =>
                  Except.error "NameError: local variable stepaindex referenced before assignment"
            else do
              let tok ← pyGet (pySplit line) 0 "IndexError: list index out of range"
              let v ← pyInt tok
              if v < 0 then Except.error "ValueError: negative dimensions are not allowed"
              else
                dumpReadNGo rest (idx + 1)
                  { st with iscompleted := true, stepaindex := some idx,
                            n := some v.toNat,
                            atomtype := some (List.replicate v.toNat 0) }
        | some LineKind.ATOMS => do
            let s := pySplit line
            let tok1 ← pyGet s 1 "IndexError: list index out of range"
            let v1 ← pyInt tok1
            match st.atomtype with
            | none =>
                Except.error "NameError: local variable atomtype referenced before assignment"
            | some at0 => do
                let tok0 ← pyGet s 0 "IndexError: list index out of range"
                let v0 ← pyInt tok0
                let at2 ← pySet at0 (v0 - 1) (v1 - 1)
                dumpReadNGo rest (idx + 1) { st with atomtype := some at2 }
        | some _ => dumpReadNGo rest (idx + 1) st

/-- `_DetectLAMMPSdump._readNfunc` (`_detect.py:182-211`): the loop, then
`self.N = N` and `self.atomtype = atomtype` (raising a `NameError` naming
the unassigned local when the header never declared them). -/
def dumpReadN (lines : List String)
    : Except String (ℕ × ℕ × List ℤ × Option DumpCols) := do
  let (sln, st) ← dumpReadNGo lines 0 ⟨false, none, none, none, none, none⟩
  match st.n with
  | none => Except.error "NameError: local variable N referenced before assignment"
  | some n =>
      match st.atomtype with
      | none => Except.error "NameError: local variable atomtype referenced before assignment"
      | some at2 => Except.ok (sln, n, at2, st.cols)

/-- The exact difference of two parsed decimals (`float(s[1])-float(s[0])`,
a box extent). -/
def Decimal.sub (a b : Decimal) : Decimal :=
  ⟨a.m * 10 ^ b.e - b.m * 10 ^ a.e, a.e + b.e⟩

/-- The loop state of `_DetectLAMMPSdump._readstepfunc`
(`_detect.py:213-234`). -/
structure DumpStepState where
  atoms : List (ℤ × (String × Decimal × Decimal × Decimal))
  boxsize : List Decimal
  timestep : Option (ℕ × ℤ)
  lastContent : Option LineKind
  deriving DecidableEq, Repr

/-- One atom body line of the dump format (`_detect.py:223-228`): the id
from the `id` column, the element name looked up from the `type` column,
and the three coordinates. -/
def parseAtomLine (atomname : List String) (cols : DumpCols) (s : List String)
    : Except String (ℤ × (String × Decimal × Decimal × Decimal)) := do
  let tokId ← pyGet s cols.idIdx "IndexError: list index out of range"
  let vid ← pyInt tokId
  let tokT ← pyGet s cols.tIdx "IndexError: list index out of range"
  let vt ← pyInt tokT
  let name ← pyGet atomname (vt - 1) "IndexError: list index out of range"
  let tokX ← pyGet s cols.xIdx "IndexError: list index out of range"
  let x ← pyFloat tokX
  let tokY ← pyGet s cols.yIdx "IndexError: list index out of range"
  let y ← pyFloat tokY
  let tokZ ← pyGet s cols.zIdx "IndexError: list index out of range"
  let z ← pyFloat tokZ
  Except.ok (vid, (name, x, y, z))

/-- One line of a dump timestep block (`_detect.py:217-233`): an `ITEM:`
line switches the section; a body line is parsed according to the last
section seen. -/
def dumpStepLine (atomname : List String) (cols : DumpCols) (step : ℕ)
    (st : DumpStepState) (line : String) : Except String DumpStepState :=
  if line = "" then Except.ok st
  else if pyStartsWith line "ITEM:" then
    Except.ok { st with lastContent := some (linecontentOf line) }
  else
    match st.lastContent with
    | none =>
        Except.error "NameError: local variable linecontent referenced before assignment"
    | some LineKind.ATOMS => do
        let a ← parseAtomLine atomname cols (pySplit line)
        Except.ok { st with atoms := st.atoms ++ [a] }
    | some LineKind.TIMESTEP => do
        let tok ← pyGet (pySplit line) 0 "IndexError: list index out of range"
        let v ← pyInt tok
        Except.ok { st with timestep := some (step, v) }
    | some LineKind.BOX => do
        let s := pySplit line
        let tok1 ← pyGet s 1 "IndexError: list index out of range"
        let v1 ← pyFloat tok1
        let tok0 ← pyGet s 0 "IndexError: list index out of range"
        let v0 ← pyFloat tok0
        Except.ok { st with boxsize := st.boxsize ++ [Decimal.sub v1 v0] }
    | some _ => Except.ok st

/-- Python's `sorted(step_atoms, key=operator.itemgetter(0))`
(`_detect.py:234`): a stable sort on the id component (insertion sort is
stable, like Python's sort). -/
def pySortedByFst {β : Type} (l : List (ℤ × β)) : List (ℤ × β) :=
  l.insertionSort (fun a b => a.1 ≤ b.1)

/-- `_DetectLAMMPSdump._readstepfunc` (`_detect.py:213-238`): fold the
block's lines, sort the collected atoms by id, strip the ids, and hand
the atom records and box extents to the downstream bonding pipeline
(`_getbondfromcrd` with its external oracles, then `_connectmolecule`),
abstracted here as `oracle`. -/
def dumpReadstep {α : Type} (atomname : List String) (cols : DumpCols)
    (oracle : List (String × Decimal × Decimal × Decimal) → List Decimal → Except String α)
    (step : ℕ) (lines : List String) : Except String (α × (ℕ × ℤ)) := do
  let st ← lines.foldlM (dumpStepLine atomname cols step) ⟨[], [], none, none⟩
  if st.atoms.isEmpty then Except.error "ValueError: not enough values to unpack"
  else do
    let atoms := (pySortedByFst st.atoms).map (fun p => p.2)
    let mols ← oracle atoms st.boxsize
    match st.timestep with
    | none =>
        Except.error "NameError: local variable timestep referenced before assignment"
    | some ts => Except.ok (mols, ts)

/-- Split the raw lines into blocks of `n` lines (a final short block is
kept), as `run_mp` cuts the file into timestep blocks. -/
def chunksGo (n : ℕ) : List String → List String → List (List String)
  | [], acc => if acc.isEmpty then [] else [acc]
  | x :: xs, acc =>
      if acc.length + 1 = n then (acc ++ [x]) :: chunksGo n xs []
      else chunksGo n xs (acc ++ [x])

/-- The timestep blocks of the raw file. -/
def chunks (n : ℕ) (l : List String) : List (List String) :=
  chunksGo n l []

/-- Modelled from the spec: the interval filter of `run_mp`
(`reacnetgenerator/utils.py`, not under `src/`): of the enumerated
timestep blocks, keep every `interval`-th one (indices divisible by the
interval); skipped blocks are never handed to the step function. -/
def keptBlocks (nlines interval : ℕ) (lines : List String) : List (ℕ × List String) :=
  ((chunks nlines lines).enum).filter (fun p => p.1 % interval = 0)

/-- Modelled from the spec: `run_mp` (`reacnetgenerator/utils.py`, not
under `src/`): apply the per-timestep function to every kept
(index, block) item of the file and return the results re-sequenced in
step order (workers may finish out of order; the orchestrator merges in
original item order). -/
def run_mp {α : Type} (nlines interval : ℕ)
    (func : ℕ → List String → Except String α) (lines : List String)
    : Except String (List α) :=
  (keptBlocks nlines interval lines).mapM (fun p => func p.1 p.2)

/-- `d[molecule].append(step)` on the insertion-ordered map `d`
(a `defaultdict(list)`, `_detect.py:76,85`). -/
def dAppend (d : List (Bytes × List ℕ)) (k : Bytes) (s : ℕ) : List (Bytes × List ℕ) :=
  if d.any (fun p => p.1 = k) then
    d.map (fun p => if p.1 = k then (p.1, p.2 ++ [s]) else p)
  else d ++ [(k, [s])]

/-- The inner merge loop of `_Detect._readinputfile` (`_detect.py:83-85`):
append the step to every molecule of one result. -/
def mergeStep (d : List (Bytes × List ℕ)) (mols : List Bytes) (step : ℕ)
    : List (Bytes × List ℕ) :=
  mols.foldl (fun acc m => dAppend acc m step) d

/-- What `_Detect._readinputfile` accumulates (`_detect.py:75-92`): the
molecule timeline `d`, the step-to-timestep table, and the two counters
stored on `self`. -/
structure DetectResult where
  d : List (Bytes × List ℕ)
  timestep : List (ℕ × ℤ)
  temp1it : ℕ
  step : ℕ
  deriving DecidableEq, Repr

/-- `_Detect._readinputfile` (`_detect.py:75-92`): one header scan, then
the per-step reader over every kept block (through the spec-modelled
`run_mp`), folding the results in step order into the timeline.  The
reader is split as header-scan `readN` (yielding the block line count and
the header data) and per-block core `readstepCore` (yielding the molecule
keys and the simulation timestep); the step number is threaded exactly as
`_readstepfunc` echoes its item number. -/
def readinputfile {η : Type} (readN : List String → Except String (ℕ × η))
    (readstepCore : η → List String → Except String (List Bytes × ℤ))
    (interval : ℕ) (lines : List String) : Except String DetectResult := do
  let (nlines, hdr) ← readN lines
  let results ← run_mp nlines interval
    (fun step block => (readstepCore hdr block).map (fun p => (p.1, (step, p.2)))) lines
  let d := results.foldl (fun acc r => mergeStep acc r.1 r.2.1) []
  let ts := results.foldl (fun acc r => acc ++ [r.2]) []
  Except.ok ⟨d, ts, d.length, ts.length⟩

/-- `_readNfunc` as the pipeline consumes it: the block line count and
the header data (N, atom types, column layout). -/
def dumpReadNHeader (lines : List String)
    : Except String (ℕ × (ℕ × List ℤ × Option DumpCols)) :=
  (dumpReadN lines).map (fun r => (r.1, r.2))

/-- The loop state of `_DetectLAMMPSbond._readNfunc` (`_detect.py:117-134`):
Python locals, `none` while unassigned. -/
structure BondHeaderState where
  iscompleted : Bool
  stepaindex : Option ℕ
  n : Option ℕ
  atomtype : Option (List ℤ)
  deriving DecidableEq, Repr

/-- The header-scan loop of `_DetectLAMMPSbond._readNfunc`
(`_detect.py:119-134`): comment lines are recognised by their first
character (`line[0]`, an `IndexError` on an empty line); the second
`# Number of particles` line ends the scan (`break`) with the block line
count; on the first one, `N` is the first all-digit token of the line
(`[int(s) for s in line.split() if s.isdigit()][0]`, an `IndexError` when
the line carries no count); any non-comment line assigns an atom type
into `atomtype` (the right-hand side `int(s[1])-1` is evaluated before
the target is resolved); reaching the end of the file yields `index + 1`
lines. -/
def bondReadNGo : List String → ℕ → BondHeaderState → Except String (ℕ × BondHeaderState)
  | [], idx, st =>
      if idx = 0 then
        Except.error "NameError: local variable index referenced before assignment"
      else Except.ok (idx, st)
  | line :: rest, idx, st =>
      match line.toList with
      | [] => Except.error "IndexError: string index out of range"
      | c :: _ =>
        if c = '#' then
          if pyStartsWith line "# Number of particles" then
            if st.iscompleted then
              match st.stepaindex with
              | some ai => Except.ok (idx - ai, st)
              | none =>
                  Except.error "NameError: local variable stepaindex referenced before assignment"
            else do
              let ntok ← pyGet ((pySplit line).filter (fun t => allDigits t.toList)) 0
                "IndexError: list index out of range"
              let v ← pyInt ntok
              bondReadNGo rest (idx + 1)
                ⟨true, some idx, some v.toNat, some (List.replicate v.toNat 0)⟩
          else bondReadNGo rest (idx + 1) st
        else do
          let s := pySplit line
          let tok1 ← pyGet s 1 "IndexError: list index out of range"
          let v1 ← pyInt tok1
          match st.atomtype with
          | none =>
              Except.error "NameError: local variable atomtype referenced before assignment"
          | some at0 => do
              let tok0 ← pyGet s 0 "IndexError: list index out of range"
              let v0 ← pyInt tok0
              let at2 ← pySet at0 (v0 - 1) (v1 - 1)
              bondReadNGo rest (idx + 1) { st with atomtype := some at2 }

/-- `_DetectLAMMPSbond._readNfunc` (`_detect.py:117-137`): the loop, then
`self.N = N` and `self.atomtype = atomtype` (raising a `NameError` naming
the unassigned local when the header never declared them). -/
def bondReadN (lines : List String) : Except String (ℕ × ℕ × List ℤ) := do
  let (sln, st) ← bondReadNGo lines 0 ⟨false, none, none, none⟩
  match st.n with
  | none => Except.error "NameError: local variable N referenced before assignment"
  | some n =>
      match st.atomtype with
      | none => Except.error "NameError: local variable atomtype referenced before assignment"
      | some at2 => Except.ok (sln, n, at2)

/-- The bond-format `_readNfunc` as the pipeline consumes it: the block
line count and the header data (N, atom types). -/
def bondReadNHeader (lines : List String) : Except String (ℕ × (ℕ × List ℤ)) :=
  (bondReadN lines).map (fun r => (r.1, r.2))

-- ===== THEOREMS =====

example : pySplit "1 1 1 2   0 1.4" = ["1", "1", "1", "2", "0", "1.4"] := by decide
example : pyInt "-3" = Except.ok (-3) := by decide
example : pyInt "1.4" = Except.error "ValueError: invalid literal for int: 1.4" := by decide
example : pyFloat "1.4" = Except.ok ⟨14, 1⟩ := by decide
example : pyRound ⟨14, 1⟩ = 1 := by decide
example : pyRound ⟨25, 1⟩ = 2 := by decide
example : pyRound ⟨15, 1⟩ = 2 := by decide
example : pyRound ⟨-15, 1⟩ = -2 := by decide
example : (Decimal.mk 14 1).toRat = 7/5 := by norm_num [Decimal.toRat]
example : pyStartsWith "ITEM: TIMESTEP" "ITEM:" = true := by decide
example : (dps [some [1], some [0], none] [some [1], some [1], none]).1 = [[0, 1], [2]] := by decide
example : (dps [some [1], some [0], none] [some [1], some [1], none]).2 = [[(0, 1, 1), (1, 0, 1)], []] := by decide

section DpsLemmas

lemma visAt_false_lt_length {l : List Bool} {i : ℕ} (h : visAt l i = false) :
    i < l.length := by
  by_contra hge
  rw [visAt, List.getD_eq_getElem?_getD, List.getElem?_eq_none (by omega)] at h
  simp at h

lemma visAt_set_self {l : List Bool} {i : ℕ} (h : i < l.length) (b : Bool) :
    visAt (l.set i b) i = b := by
  rw [visAt, List.getD_eq_getElem?_getD, List.getElem?_set_self (by simpa using h)]
  rfl

lemma visAt_set_ne {l : List Bool} {i j : ℕ} (h : i ≠ j) (b : Bool) :
    visAt (l.set i b) j = visAt l j := by
  rw [visAt, visAt, List.getD_eq_getElem?_getD, List.getD_eq_getElem?_getD,
    List.getElem?_set_ne h]

lemma visAt_set_true_iff {l : List Bool} {i : ℕ} (hi : i < l.length) (j : ℕ) :
    visAt (l.set i true) j = true ↔ visAt l j = true ∨ j = i := by
  by_cases hij : j = i
  · subst hij
    simp [visAt_set_self hi]
  · rw [visAt_set_ne (fun h => hij h.symm)]
    simp [hij]

lemma count_false_set_true {l : List Bool} {i : ℕ} (h : visAt l i = false) :
    (l.set i true).count false + 1 = l.count false := by
  induction l generalizing i with
  | nil => simp [visAt] at h
  | cons x xs ih =>
      cases i with
      | zero =>
          rw [visAt, List.getD_cons_zero] at h
          subst h
          simp [List.set, List.count_cons]
      | succ n =>
          rw [visAt, List.getD_cons_succ] at h
          simp only [List.set, List.count_cons]
          have := ih (h := h)
          omega

lemma visAt_true_of_count_false_eq_zero {l : List Bool} (h : l.count false = 0)
    (a : ℕ) : visAt l a = true := by
  by_contra hf
  have hf2 : visAt l a = false := by
    cases hval : visAt l a
    · rfl
    · exact absurd hval hf
  have hlt := visAt_false_lt_length hf2
  have hmem : false ∈ l := by
    rw [visAt, List.getD_eq_getElem?_getD, List.getElem?_eq_getElem hlt] at hf2
    simp only [Option.getD_some] at hf2
    exact hf2 ▸ List.getElem_mem hlt
  rw [← List.count_pos_iff] at hmem
  omega

lemma dfsSkip_eq_none {visited : List Bool} :
    ∀ {stack : List ℕ}, dfsSkip visited stack = none →
    ∀ a ∈ stack, visAt visited a = true := by
  intro stack
  induction stack with
  | nil => intro _ a ha; simp at ha
  | cons x rest ih =>
      intro h a ha
      by_cases hx : visAt visited x = false
      · simp [dfsSkip, hx] at h
      · have hx2 : visAt visited x = true := by
          cases hval : visAt visited x
          · exact absurd hval hx
          · rfl
        rw [dfsSkip, if_neg (by simp [hx2])] at h
        rcases List.mem_cons.mp ha with rfl | ha2
        · exact hx2
        · exact ih h a ha2

lemma dfsSkip_eq_some {visited : List Bool} :
    ∀ {stack : List ℕ} {a : ℕ} {rest : List ℕ},
    dfsSkip visited stack = some (a, rest) →
    visAt visited a = false ∧
    ∃ pre, stack = pre ++ a :: rest ∧ ∀ x ∈ pre, visAt visited x = true := by
  intro stack
  induction stack with
  | nil => intro a rest h; simp [dfsSkip] at h
  | cons x xs ih =>
      intro a rest h
      by_cases hx : visAt visited x = false
      · rw [dfsSkip, if_pos hx] at h
        obtain ⟨rfl, rfl⟩ : x = a ∧ xs = rest := by simpa using h
        exact ⟨hx, [], by simp⟩
      · have hx2 : visAt visited x = true := by
          cases hval : visAt visited x
          · exact absurd hval hx
          · rfl
        rw [dfsSkip, if_neg (by simp [hx2])] at h
        obtain ⟨hfa, pre, rfl, hpre⟩ := ih h
        refine ⟨hfa, x :: pre, by simp, ?_⟩
        intro y hy
        rcases List.mem_cons.mp hy with rfl | hy2
        · exact hx2
        · exact hpre y hy2

end DpsLemmas
lemma dfsA_spec (adj : List (List ℕ)) :
    ∀ (b : ℕ) (stack : List ℕ) (visited : List Bool) (acc : List ℕ),
    visited.count false ≤ b →
    ∃ new,
      (dfsA adj b stack visited acc).1 = acc ++ new ∧
      (dfsA adj b stack visited acc).2.length = visited.length ∧
      new.Nodup ∧
      (∀ i ∈ new, visAt visited i = false) ∧
      (∀ i, visAt (dfsA adj b stack visited acc).2 i = true ↔
        visAt visited i = true ∨ i ∈ new) ∧
      (∀ a ∈ stack, visAt (dfsA adj b stack visited acc).2 a = true) ∧
      (∀ i ∈ new, i ∈ stack ∨ ∃ c, i ∈ adj.getD c []) := by
  intro b
  induction b with
  | zero =>
      intro stack visited acc hb
      have hz : visited.count false = 0 := Nat.le_zero.mp hb
      refine ⟨[], by simp [dfsA], by simp [dfsA], by simp, by simp, ?_, ?_, by simp⟩
      · intro i
        simp only [dfsA, List.not_mem_nil, or_false]
      · intro a _
        simp only [dfsA]
        exact visAt_true_of_count_false_eq_zero hz a
  | succ b ih =>
      intro stack visited acc hb
      cases hskip : dfsSkip visited stack with
      | none =>
          have heq : dfsA adj (b + 1) stack visited acc = (acc, visited) := by
            rw [dfsA, hskip]
          refine ⟨[], by simp [heq], by simp [heq], by simp, by simp, ?_, ?_, by simp⟩
          · intro i
            simp [heq]
          · intro a ha
            rw [heq]
            exact dfsSkip_eq_none hskip a ha
      | some p =>
          obtain ⟨a, rest⟩ := p
          obtain ⟨hfa, pre, hstack, hpre⟩ := dfsSkip_eq_some hskip
          have ha_lt := visAt_false_lt_length hfa
          have hcount : (visited.set a true).count false ≤ b := by
            have := count_false_set_true hfa
            omega
          have heq : dfsA adj (b + 1) stack visited acc =
              dfsA adj b (adj.getD a [] ++ rest) (visited.set a true) (acc ++ [a]) := by
            rw [dfsA, hskip]
          obtain ⟨new, h1, h2, h3, h4, h5, h6, h7⟩ :=
            ih (adj.getD a [] ++ rest) (visited.set a true) (acc ++ [a]) hcount
          have hanotnew : a ∉ new := by
            intro hmem
            have := h4 a hmem
            rw [visAt_set_self ha_lt true] at this
            simp at this
          refine ⟨a :: new, ?_, ?_, ?_, ?_, ?_, ?_, ?_⟩
          · rw [heq, h1, List.append_assoc]
            rfl
          · rw [heq, h2, List.length_set]
          · exact List.nodup_cons.mpr ⟨hanotnew, h3⟩
          · intro i hi
            rcases List.mem_cons.mp hi with rfl | hi2
            · exact hfa
            · have hne : i ≠ a := fun h => hanotnew (h ▸ hi2)
              have := h4 i hi2
              rwa [visAt_set_ne (fun h => hne h.symm)] at this
          · intro i
            rw [heq]
            rw [h5 i, visAt_set_true_iff ha_lt, List.mem_cons]
            tauto
          · intro x hx
            rw [heq]
            rw [hstack] at hx
            rcases List.mem_append.mp hx with hx1 | hx2
            · have hvx := hpre x hx1
              have : visAt (visited.set a true) x = true := by
                rw [visAt_set_true_iff ha_lt]
                exact Or.inl hvx
              exact (h5 x).mpr (Or.inl this)
            · rcases List.mem_cons.mp hx2 with rfl | hx3
              · exact (h5 x).mpr (Or.inl (by rw [visAt_set_true_iff ha_lt]; exact Or.inr rfl))
              · exact h6 x (List.mem_append.mpr (Or.inr hx3))
          · intro i hi
            rcases List.mem_cons.mp hi with rfl | hi2
            · exact Or.inl (by rw [hstack]; exact List.mem_append.mpr (Or.inr (List.mem_cons_self _ _)))
            · rcases h7 i hi2 with hmem | hex
              · rcases List.mem_append.mp hmem with hadj | hrest
                · exact Or.inr ⟨a, hadj⟩
                · exact Or.inl (by rw [hstack]; exact List.mem_append.mpr (Or.inr (List.mem_cons.mpr (Or.inr hrest))))
              · exact Or.inr hex
lemma dpsLoop_spec (adj : List (List ℕ)) :
    ∀ (roots : List ℕ) (visited : List Bool) (comps : List (List ℕ)),
    ∃ new,
      (dpsLoop adj roots visited comps).1 = comps ++ new ∧
      (dpsLoop adj roots visited comps).2.length = visited.length ∧
      new.flatten.Nodup ∧
      (∀ i ∈ new.flatten, visAt visited i = false) ∧
      (∀ i, visAt (dpsLoop adj roots visited comps).2 i = true ↔
        visAt visited i = true ∨ i ∈ new.flatten) ∧
      (∀ r ∈ roots, visAt (dpsLoop adj roots visited comps).2 r = true) := by
  intro roots
  induction roots with
  | nil =>
      intro visited comps
      refine ⟨[], by simp [dpsLoop], by simp [dpsLoop], by simp, by simp, ?_, by simp⟩
      intro i
      simp [dpsLoop]
  | cons r rs ih =>
      intro visited comps
      by_cases hvr : visAt visited r = false
      · have heq : dpsLoop adj (r :: rs) visited comps =
            dpsLoop adj rs (dfsA adj (visited.count false) [r] visited []).2
              (comps ++ [(dfsA adj (visited.count false) [r] visited []).1]) := by
          rw [dpsLoop, if_pos hvr]
        obtain ⟨n1, p1, p2, p3, p4, p5, p6, p7⟩ :=
          dfsA_spec adj (visited.count false) [r] visited [] (le_refl _)
        obtain ⟨n2, q1, q2, q3, q4, q5, q6⟩ :=
          ih (dfsA adj (visited.count false) [r] visited []).2
            (comps ++ [(dfsA adj (visited.count false) [r] visited []).1])
        have hdisj : List.Disjoint n1 n2.flatten := by
          intro x hx1 hx2
          have hfalse := q4 x hx2
          have htrue : visAt (dfsA adj (visited.count false) [r] visited []).2 x = true :=
            (p5 x).mpr (Or.inr hx1)
          rw [htrue] at hfalse
          simp at hfalse
        refine ⟨n1 :: n2, ?_, ?_, ?_, ?_, ?_, ?_⟩
        · rw [heq, q1, p1, List.append_assoc]
          rfl
        · rw [heq, q2, p2]
        · rw [List.flatten_cons]
          exact List.Nodup.append p3 q3 hdisj
        · intro i hi
          rw [List.flatten_cons, List.mem_append] at hi
          rcases hi with hi1 | hi2
          · exact p4 i (by simpa using hi1)
          · have hfalse := q4 i hi2
            cases hval : visAt visited i
            · rfl
            · have : visAt (dfsA adj (visited.count false) [r] visited []).2 i = true :=
                (p5 i).mpr (Or.inl hval)
              rw [this] at hfalse
              simp at hfalse
        · intro i
          rw [heq, q5 i, p5 i, List.flatten_cons, List.mem_append]
          tauto
        · intro x hx
          rw [heq]
          rcases List.mem_cons.mp hx with rfl | hx2
          · exact (q5 x).mpr (Or.inl (p6 x (List.mem_singleton.mpr rfl)))
          · exact q6 x hx2
      · have hvr2 : visAt visited r = true := by
          cases hval : visAt visited r
          · exact absurd hval hvr
          · rfl
        have heq : dpsLoop adj (r :: rs) visited comps = dpsLoop adj rs visited comps := by
          rw [dpsLoop, if_neg (by simp [hvr2])]
        obtain ⟨n2, q1, q2, q3, q4, q5, q6⟩ := ih visited comps
        refine ⟨n2, by rw [heq, q1], by rw [heq, q2], q3, q4, ?_, ?_⟩
        · intro i
          rw [heq, q5 i]
        · intro x hx
          rw [heq]
          rcases List.mem_cons.mp hx with rfl | hx2
          · exact (q5 x).mpr (Or.inl hvr2)
          · exact q6 x hx2

lemma visAt_replicate_false {n i : ℕ} :
    visAt (List.replicate n false) i = if i < n then false else true := by
  by_cases h : i < n
  · rw [if_pos h, visAt, List.getD_eq_getElem?_getD,
      List.getElem?_eq_getElem (by simpa using h)]
    simp
  · rw [if_neg h, visAt, List.getD_eq_getElem?_getD, List.getElem?_eq_none (by simpa using h)]
    rfl

lemma adj_map_getD (bond : List (Option (List ℕ))) (i : ℕ) :
    (bond.map (fun o => o.getD [])).getD i [] = adjOf bond i := by
  rw [adjOf, List.getD_eq_getElem?_getD, List.getD_eq_getElem?_getD, List.getElem?_map]
  cases bond[i]? <;> rfl

lemma dps_cover (bond : List (Option (List ℕ))) (level : List (Option (List ℤ))) :
    (dps bond level).1.flatten.Nodup ∧
    ∀ i, i ∈ (dps bond level).1.flatten ↔ i < bond.length := by
  have hlen : (bond.map (fun o => o.getD [])).length = bond.length := List.length_map _ _
  obtain ⟨new, q1, _, q3, q4, q5, q6⟩ :=
    dpsLoop_spec (bond.map (fun o => o.getD []))
      (List.range (bond.map (fun o => o.getD [])).length)
      (List.replicate (bond.map (fun o => o.getD [])).length false) []
  have hres : (dps bond level).1 = new := by
    rw [dps]
    simpa using q1
  constructor
  · rw [hres]; exact q3
  · intro i
    rw [hres]
    constructor
    · intro hmem
      have := q4 i hmem
      rw [visAt_replicate_false] at this
      by_contra hge
      rw [if_neg (by omega)] at this
      simp at this
    · intro hlt
      have hroot : i ∈ List.range (bond.map (fun o => o.getD [])).length := by
        rw [List.mem_range]; omega
      have htrue := q6 i hroot
      rcases (q5 i).mp htrue with hrep | hmem
      · rw [visAt_replicate_false, if_pos (by omega)] at hrep
        simp at hrep
      · exact hmem

lemma countP_mem_one :
    ∀ {comps : List (List ℕ)} {i : ℕ}, comps.flatten.Nodup → i ∈ comps.flatten →
    comps.countP (fun c => decide (i ∈ c)) = 1 := by
  intro comps
  induction comps with
  | nil => intro i _ hm; simp at hm
  | cons c cs ih =>
      intro i hnd hm
      rw [List.flatten_cons] at hnd hm
      have hdisj := List.disjoint_of_nodup_append hnd
      rw [List.countP_cons]
      by_cases hc : i ∈ c
      · have hnot : i ∉ cs.flatten := hdisj hc
        have hz : cs.countP (fun c => decide (i ∈ c)) = 0 := by
          rw [List.countP_eq_zero]
          intro c2 hc2
          simp only [decide_eq_true_eq]
          intro hmem2
          exact hnot (List.mem_flatten.mpr ⟨c2, hc2, hmem2⟩)
        simp [hz, hc]
      · have hm2 : i ∈ cs.flatten := by
          rcases List.mem_append.mp hm with h1 | h2
          · exact absurd h1 hc
          · exact h2
        have := ih (List.Nodup.of_append_right hnd) hm2
        simp [this, hc]
lemma dfsA_isolated (adj : List (List ℕ)) {r : ℕ} (visited : List Bool)
    (hadj : adj.getD r [] = []) (hvr : visAt visited r = false) :
    dfsA adj (visited.count false) [r] visited [] = ([r], visited.set r true) := by
  have hpos : 0 < visited.count false := by
    have := count_false_set_true hvr
    omega
  obtain ⟨n, hn⟩ : ∃ n, visited.count false = n + 1 :=
    ⟨visited.count false - 1, by omega⟩
  have hskip : dfsSkip visited [r] = some (r, []) := by
    rw [dfsSkip, if_pos hvr]
  rw [hn, dfsA, hskip]
  simp only [hadj, List.nil_append]
  cases n with
  | zero => rw [dfsA]
  | succ m =>
      rw [dfsA]
      rfl

lemma dpsLoop_isolated (adj : List (List ℕ)) {i : ℕ}
    (hadj : adj.getD i [] = []) (hno : ∀ c, i ∉ adj.getD c []) :
    ∀ (roots : List ℕ) (visited : List Bool) (comps : List (List ℕ)),
    i ∈ roots → visAt visited i = false →
    [i] ∈ (dpsLoop adj roots visited comps).1 := by
  intro roots
  induction roots with
  | nil => intro _ _ h; simp at h
  | cons r rs ih =>
      intro visited comps hmem hvis
      by_cases hvr : visAt visited r = false
      · have heq : dpsLoop adj (r :: rs) visited comps =
            dpsLoop adj rs (dfsA adj (visited.count false) [r] visited []).2
              (comps ++ [(dfsA adj (visited.count false) [r] visited []).1]) := by
          rw [dpsLoop, if_pos hvr]
        by_cases hri : r = i
        · subst hri
          rw [heq, dfsA_isolated adj visited hadj hvr]
          obtain ⟨n2, q1, _, _, _, _, _⟩ :=
            dpsLoop_spec adj rs (visited.set r true) (comps ++ [[r]])
          rw [q1]
          exact List.mem_append.mpr (Or.inl (List.mem_append.mpr (Or.inr
            (List.mem_singleton.mpr rfl))))
        · obtain ⟨n1, p1, p2, p3, p4, p5, p6, p7⟩ :=
            dfsA_spec adj (visited.count false) [r] visited [] (le_refl _)
          have hinotnew : i ∉ n1 := by
            intro hn
            rcases p7 i hn with hs | ⟨c, hc⟩
            · exact hri (List.mem_singleton.mp hs).symm
            · exact hno c hc
          have hvis2 : visAt (dfsA adj (visited.count false) [r] visited []).2 i = false := by
            cases hval : visAt (dfsA adj (visited.count false) [r] visited []).2 i
            · rfl
            · rcases (p5 i).mp hval with htrue | hnew
              · rw [hvis] at htrue
                simp at htrue
              · exact absurd hnew hinotnew
          have hmem2 : i ∈ rs := by
            rcases List.mem_cons.mp hmem with rfl | h
            · exact absurd rfl hri
            · exact h
          rw [heq]
          exact ih _ _ hmem2 hvis2
      · have heq : dpsLoop adj (r :: rs) visited comps = dpsLoop adj rs visited comps := by
          rw [dpsLoop, if_neg hvr]
        have hmem2 : i ∈ rs := by
          rcases List.mem_cons.mp hmem with rfl | h
          · exact absurd hvis hvr
          · exact h
        rw [heq]
        exact ih _ _ hmem2 hvis

lemma dps_isolated (bond : List (Option (List ℕ))) (level : List (Option (List ℤ)))
    {i : ℕ} (hlt : i < bond.length) (hadj : adjOf bond i = [])
    (hno : ∀ j, i ∉ adjOf bond j) :
    [i] ∈ (dps bond level).1 := by
  have h1 : (bond.map (fun o => o.getD [])).getD i [] = [] := by
    rw [adj_map_getD]; exact hadj
  have h2 : ∀ c, i ∉ (bond.map (fun o => o.getD [])).getD c [] := by
    intro c
    rw [adj_map_getD]
    exact hno c
  have hroot : i ∈ List.range (bond.map (fun o => o.getD [])).length := by
    rw [List.mem_range, List.length_map]
    exact hlt
  have hvis : visAt (List.replicate (bond.map (fun o => o.getD [])).length false) i = false := by
    rw [visAt_replicate_false, if_pos (by rw [List.length_map]; exact hlt)]
  exact dpsLoop_isolated _ h1 h2 _ _ _ hroot hvis
/-- C1: the molecule extraction of `_Detect._connectmolecule`
(`_detect.py:105-107`, via the spec-modelled `dps`) partitions the atom
indices of a timestep's bond table of size N: every atom index below N
appears in exactly one molecule, molecules hold only atom indices below N,
and an atom whose neighbor entry is null or empty (and which no other
atom's neighbor list mentions) forms its own singleton molecule whose bond
list is empty. -/
theorem C1_dps_partition (bond : List (Option (List ℕ))) (level : List (Option (List ℤ))) :
    (∀ i, i < bond.length →
      ((dps bond level).1.countP (fun c => decide (i ∈ c))) = 1) ∧
    (∀ c ∈ (dps bond level).1, ∀ i ∈ c, i < bond.length) ∧
    (∀ i, i < bond.length → adjOf bond i = [] → (∀ j, i ∉ adjOf bond j) →
      ∃ k : ℕ, (dps bond level).1[k]? = some [i] ∧
        (dps bond level).2[k]? = some ([] : List (ℕ × ℕ × ℤ))) := by
  obtain ⟨hnd, hmem⟩ := dps_cover bond level
  refine ⟨?_, ?_, ?_⟩
  · intro i hi
    exact countP_mem_one hnd ((hmem i).mpr hi)
  · intro c hc i hic
    exact (hmem i).mp (List.mem_flatten.mpr ⟨c, hc, hic⟩)
  · intro i hi h1 h2
    have hm := dps_isolated bond level hi h1 h2
    obtain ⟨k, hklt, hkeq⟩ := List.mem_iff_getElem.mp hm
    refine ⟨k, by rw [List.getElem?_eq_getElem hklt, hkeq], ?_⟩
    have h2eq : (dps bond level).2 = (dps bond level).1.map (compBonds bond level) := rfl
    rw [h2eq, List.getElem?_map, List.getElem?_eq_getElem hklt, hkeq]
    simp [compBonds, h1]
lemma getD_set_self2 {α : Type} {l : List α} {i : ℕ} (h : i < l.length) (x d : α) :
    (l.set i x).getD i d = x := by
  rw [List.getD_eq_getElem?_getD, List.getElem?_set_self (by simpa using h)]
  rfl

lemma getD_set_ne2 {α : Type} {l : List α} {i j : ℕ} (h : j ≠ i) (x d : α) :
    (l.set i x).getD j d = l.getD j d := by
  rw [List.getD_eq_getElem?_getD, List.getD_eq_getElem?_getD,
    List.getElem?_set_ne (fun hh => h hh.symm)]

lemma pyAppendAt_inrange {α : Type} {l : List (List α)} {i : ℤ} (h0 : 0 ≤ i)
    (hl : i.toNat < l.length) (a : α) :
    pyAppendAt l i a = Except.ok (l.set i.toNat (l.getD i.toNat [] ++ [a])) := by
  rw [pyAppendAt, dif_pos ⟨h0, hl⟩]
  congr 2
  rw [List.getD_eq_getElem?_getD, List.getElem?_eq_getElem hl]
  rfl

lemma recordPair_fst_getD {st : List (List ℤ) × List (List ℤ)} {a b : ℕ}
    (ha : a < st.1.length) (hb : b < st.1.length) (lv : ℤ) (i : ℕ) :
    (recordPair st a b lv).1.getD i [] =
      st.1.getD i [] ++
        ((if i = a then [(b : ℤ)] else []) ++ (if i = b then [(a : ℤ)] else [])) := by
  rw [recordPair]
  by_cases hib : i = b
  · subst hib
    rw [getD_set_self2 (by simpa using hb)]
    by_cases hia : i = a
    · subst hia
      rw [getD_set_self2 ha]
      simp
    · rw [getD_set_ne2 (fun hh => hia hh) _, if_neg hia, if_pos rfl]
      simp
  · rw [getD_set_ne2 hib]
    by_cases hia : i = a
    · subst hia
      rw [getD_set_self2 ha, if_pos rfl, if_neg hib]
      simp
    · rw [getD_set_ne2 hia, if_neg hia, if_neg hib]
      simp

lemma recordPair_snd_getD {st : List (List ℤ) × List (List ℤ)} {a b : ℕ}
    (ha : a < st.2.length) (hb : b < st.2.length) (lv : ℤ) (i : ℕ) :
    (recordPair st a b lv).2.getD i [] =
      st.2.getD i [] ++
        ((if i = a then [lv] else []) ++ (if i = b then [lv] else [])) := by
  rw [recordPair]
  by_cases hib : i = b
  · subst hib
    rw [getD_set_self2 (by simpa using hb)]
    by_cases hia : i = a
    · subst hia
      rw [getD_set_self2 ha]
      simp
    · rw [getD_set_ne2 (fun hh => hia hh) _, if_neg hia, if_pos rfl]
      simp
  · rw [getD_set_ne2 hib]
    by_cases hia : i = a
    · subst hia
      rw [getD_set_self2 ha, if_pos rfl, if_neg hib]
      simp
    · rw [getD_set_ne2 hia, if_neg hia, if_neg hib]
      simp

lemma pairsAt_recordPair {N : ℕ} {st : List (List ℤ) × List (List ℤ)}
    (hs1 : st.1.length = N) (hs2 : st.2.length = N)
    (hlen : ∀ i, (st.1.getD i []).length = (st.2.getD i []).length)
    {a b : ℕ} (ha : a < N) (hb : b < N) (lv : ℤ) (i : ℕ) :
    pairsAt (recordPair st a b lv) i =
      pairsAt st i ++
        ((if i = a then [((b : ℤ), lv)] else []) ++ (if i = b then [((a : ℤ), lv)] else [])) := by
  rw [pairsAt, pairsAt,
    recordPair_fst_getD (by omega) (by omega) lv i,
    recordPair_snd_getD (by omega) (by omega) lv i,
    List.zip_append (by rw [hlen i])]
  congr 1
  by_cases hia : i = a
  · by_cases hib : i = b
    · subst hia
      subst hib
      simp
    · subst hia
      simp [hib]
  · by_cases hib : i = b
    · subst hib
      simp [hia]
    · simp [hia, hib]
lemma count_pair_singleton (x y : ℕ) (l lv : ℤ) :
    List.count (((x : ℕ) : ℤ), l) [((y : ℤ), lv)] = if x = y ∧ l = lv then 1 else 0 := by
  by_cases h : x = y ∧ l = lv
  · obtain ⟨rfl, rfl⟩ := h
    simp
  · rw [if_neg h, List.count_eq_zero]
    intro hmem
    rw [List.mem_singleton] at hmem
    simp only [Prod.mk.injEq] at hmem
    obtain ⟨h1, h2⟩ := hmem
    exact h ⟨by exact_mod_cast h1, h2⟩

lemma length_ite_singleton {P : Prop} [Decidable P] {A B : Type} (u : A) (v : B) :
    (if P then [u] else []).length = (if P then [v] else []).length := by
  by_cases h : P <;> simp [h]

lemma count_ite_singleton (p r : ℕ) (l lv : ℤ) (c : Prop) [Decidable c] :
    List.count (((p : ℕ) : ℤ), l) (if c then [((r : ℤ), lv)] else []) =
      if c ∧ p = r ∧ l = lv then 1 else 0 := by
  by_cases h : c
  · rw [if_pos h, count_pair_singleton]
    by_cases h2 : p = r ∧ l = lv
    · rw [if_pos h2, if_pos ⟨h, h2⟩]
    · rw [if_neg h2, if_neg (fun hh => h2 ⟨hh.2.1, hh.2.2⟩)]
  · rw [if_neg h, if_neg (fun hh => h hh.1)]
    simp

lemma count_extra_symm (a b x y : ℕ) (l lv : ℤ) :
    List.count (((y : ℕ) : ℤ), l)
      ((if x = a then [((b : ℤ), lv)] else []) ++ (if x = b then [((a : ℤ), lv)] else [])) =
    List.count (((x : ℕ) : ℤ), l)
      ((if y = a then [((b : ℤ), lv)] else []) ++ (if y = b then [((a : ℤ), lv)] else [])) := by
  rw [List.count_append, List.count_append,
    count_ite_singleton y b l lv (x = a), count_ite_singleton y a l lv (x = b),
    count_ite_singleton x b l lv (y = a), count_ite_singleton x a l lv (y = b)]
  split_ifs <;> first | rfl | omega

lemma SymmState_recordPair {N : ℕ} {st : List (List ℤ) × List (List ℤ)}
    (hs : SymmState N st) {a b : ℕ} (ha : a < N) (hb : b < N) (lv : ℤ) :
    SymmState N (recordPair st a b lv) := by
  obtain ⟨h1, h2, h3, h4⟩ := hs
  have hfst := fun i => @recordPair_fst_getD st a b (by omega) (by omega) lv i
  have hsnd := fun i => @recordPair_snd_getD st a b (by omega) (by omega) lv i
  refine ⟨?_, ?_, ?_, ?_⟩
  · rw [recordPair]
    simp [h1]
  · rw [recordPair]
    simp [h2]
  · intro i
    rw [hfst i, hsnd i]
    simp only [List.length_append]
    rw [h3 i, length_ite_singleton ((b : ℤ)) lv, length_ite_singleton ((a : ℤ)) lv]
  · intro x y l
    rw [pairsAt_recordPair h1 h2 h3 ha hb lv x,
      pairsAt_recordPair h1 h2 h3 ha hb lv y]
    simp only [List.count_append]
    rw [h4 x y l]
    have hsym := count_extra_symm a b x y l lv
    simp only [List.count_append] at hsym
    omega
lemma pyGet_ok_mem {α : Type} {l : List α} {i : ℤ} {msg : String} {v : α}
    (h : pyGet l i msg = Except.ok v) : v ∈ l := by
  rw [pyGet] at h
  split_ifs at h with h1 h2
  · exact (Except.ok.injEq .. ▸ h) ▸ List.get_mem ..
  · exact (Except.ok.injEq .. ▸ h) ▸ List.get_mem ..

lemma appendChain_symm {N : ℕ} {st : List (List ℤ) × List (List ℤ)}
    (hs : SymmState N st) {t1 t2 : ℤ} {st2 : List (List ℤ) × List (List ℤ)}
    (h10 : 0 ≤ t1) (h11 : t1 < (N : ℤ)) (h20 : 0 ≤ t2) (h21 : t2 < (N : ℤ))
    {lvE : Except String ℤ}
    (hok : (do
      let bond1 ← pyAppendAt st.1 t1 t2
      let bond2 ← pyAppendAt bond1 t2 t1
      let lv ← lvE
      let bl1 ← pyAppendAt st.2 t1 lv
      let bl2 ← pyAppendAt bl1 t2 lv
      Except.ok (bond2, bl2)) = Except.ok st2) : SymmState N st2 := by
  obtain ⟨hl1, hl2, hlen, hcnt⟩ := hs
  have ht1 : t1.toNat < st.1.length := by omega
  have ht2 : t2.toNat < st.2.length := by omega
  cases hlv : lvE with
  | error e =>
      rw [pyAppendAt_inrange h10 ht1] at hok
      simp only [bind, Except.bind] at hok
      rw [pyAppendAt_inrange h20 (by simp only [List.length_set]; omega)] at hok
      simp only [bind, Except.bind] at hok
      rw [hlv] at hok
      simp at hok
  | ok lv =>
      rw [pyAppendAt_inrange h10 ht1] at hok
      simp only [bind, Except.bind] at hok
      rw [pyAppendAt_inrange h20 (by simp only [List.length_set]; omega)] at hok
      simp only [bind, Except.bind] at hok
      rw [hlv] at hok
      simp only [bind, Except.bind] at hok
      rw [pyAppendAt_inrange h10 (show t1.toNat < st.2.length by omega)] at hok
      simp only [bind, Except.bind] at hok
      rw [pyAppendAt_inrange h20 (by simp only [List.length_set]; omega)] at hok
      simp only [bind, Except.bind, Except.ok.injEq] at hok
      have hst2 : st2 = recordPair st t1.toNat t2.toNat lv := by
        rw [← hok, recordPair]
        rw [Int.toNat_of_nonneg h10, Int.toNat_of_nonneg h20]
      rw [hst2]
      exact SymmState_recordPair ⟨hl1, hl2, hlen, hcnt⟩ (by omega) (by omega) lv
lemma mol2BondLine_symm {N : ℕ} {st st2 : List (List ℤ) × List (List ℤ)}
    {realnumber : List ℤ} {s : List String}
    (hs : SymmState N st)
    (hr : ∀ v ∈ realnumber, 0 ≤ v ∧ v < (N : ℤ))
    (hids : ∀ v : ℤ,
      (pyInt (s.getD 1 "") = Except.ok v ∨ pyInt (s.getD 2 "") = Except.ok v) → 1 ≤ v)
    (hok : mol2BondLine N realnumber st s = Except.ok st2) :
    SymmState N st2 := by
  rw [mol2BondLine] at hok
  by_cases hlen : 3 < s.length
  swap
  · rw [if_neg hlen] at hok
    exact (Except.ok.injEq .. ▸ hok) ▸ hs
  rw [if_pos hlen] at hok
  cases hv1 : pyInt (s.getD 1 "") with
  | error e => rw [hv1] at hok; simp [bind, Except.bind] at hok
  | ok v1 =>
  rw [hv1] at hok
  simp only [bind, Except.bind] at hok
  cases hv2 : pyInt (s.getD 2 "") with
  | error e => rw [hv2] at hok; simp [bind, Except.bind] at hok
  | ok v2 =>
  rw [hv2] at hok
  simp only [bind, Except.bind] at hok
  have hv1pos : 1 ≤ v1 := hids v1 (Or.inl hv1)
  have hv2pos : 1 ≤ v2 := hids v2 (Or.inr hv2)
  by_cases hboth : (N : ℤ) ≤ v1 - 1 ∧ (N : ℤ) ≤ v2 - 1
  · rw [if_pos hboth] at hok
    exact (Except.ok.injEq .. ▸ hok) ▸ hs
  rw [if_neg hboth] at hok
  by_cases hc1 : (N : ℤ) ≤ v1 - 1
  · -- the first endpoint is an image atom, the second is real
    have hc2 : ¬ (N : ℤ) ≤ v2 - 1 := fun hh => hboth ⟨hc1, hh⟩
    rw [if_pos hc1] at hok
    cases hg : pyGet realnumber (v1 - 1 - N) "IndexError: index out of bounds" with
    | error e => rw [hg] at hok; simp [bind, Except.bind] at hok
    | ok t1 =>
        rw [hg] at hok
        simp only [bind, Except.bind] at hok
        rw [if_pos hc1] at hok
        try simp only [bind, Except.bind] at hok
        obtain ⟨ht10, ht11⟩ := hr t1 (pyGet_ok_mem hg)
        exact appendChain_symm hs ht10 ht11 (by omega) (by omega) hok
  rw [if_neg hc1] at hok
  try simp only [bind, Except.bind] at hok
  rw [if_neg hc1] at hok
  by_cases hc2 : (N : ℤ) ≤ v2 - 1
  · rw [if_pos hc2] at hok
    cases hg : pyGet realnumber (v2 - 1 - N) "IndexError: index out of bounds" with
    | error e => rw [hg] at hok; simp [bind, Except.bind] at hok
    | ok t2 =>
        rw [hg] at hok
        simp only [bind, Except.bind] at hok
        obtain ⟨ht20, ht21⟩ := hr t2 (pyGet_ok_mem hg)
        exact appendChain_symm hs (by omega) (by omega) ht20 ht21 hok
  · rw [if_neg hc2] at hok
    try simp only [bind, Except.bind] at hok
    exact appendChain_symm hs (by omega) (by omega) (by omega) (by omega) hok

lemma mol2Loop_symm {N : ℕ} {realnumber : List ℤ}
    (hr : ∀ v ∈ realnumber, 0 ≤ v ∧ v < (N : ℤ)) :
    ∀ (lines : List String) (inBond : Bool) (st st2 : List (List ℤ) × List (List ℤ)),
    SymmState N st →
    mol2IdsOK lines →
    mol2Loop N realnumber lines inBond st = Except.ok st2 →
    SymmState N st2 := by
  intro lines
  induction lines with
  | nil =>
      intro inBond st st2 hs _ hok
      rw [mol2Loop] at hok
      exact (Except.ok.injEq .. ▸ hok) ▸ hs
  | cons line rest ih =>
      intro inBond st st2 hs hidsAll hok
      have hidsRest : mol2IdsOK rest := by
        intro l hl v hv
        exact hidsAll l (List.mem_cons.mpr (Or.inr hl)) v hv
      rw [mol2Loop] at hok
      by_cases hb : pyStartsWith line "@<TRIPOS>BOND" = true
      · rw [if_pos hb] at hok
        exact ih true st st2 hs hidsRest hok
      · rw [if_neg hb] at hok
        cases inBond with
        | false =>
            rw [if_neg (by simp)] at hok
            exact ih false st st2 hs hidsRest hok
        | true =>
            rw [if_pos rfl] at hok
            cases hline : mol2BondLine N realnumber st (pySplit line) with
            | error e => rw [hline] at hok; simp [bind, Except.bind] at hok
            | ok stMid =>
                rw [hline] at hok
                simp only [bind, Except.bind] at hok
                have hsMid : SymmState N stMid :=
                  mol2BondLine_symm hs hr
                    (fun v hv => hidsAll line (List.mem_cons_self ..) v hv) hline
                exact ih true stMid st2 hsMid hidsRest hok
lemma getD_replicate_nil {n i : ℕ} : (List.replicate n ([] : List ℤ)).getD i [] = [] := by
  rw [List.getD_eq_getElem?_getD]
  rcases h : (List.replicate n ([] : List ℤ))[i]? with _ | v
  · rfl
  · have := List.getElem?_mem h
    rw [List.eq_of_mem_replicate this]
    rfl

lemma SymmState_init (N : ℕ) :
    SymmState N (List.replicate N ([] : List ℤ), List.replicate N ([] : List ℤ)) := by
  refine ⟨List.length_replicate .., List.length_replicate .., ?_, ?_⟩
  · intro i
    simp only [getD_replicate_nil]
  · intro a b l
    simp only [pairsAt, getD_replicate_nil]
    rfl

lemma pbcRealnumber_bounds {atomnumber : ℕ} (h0 : 0 < atomnumber) (dists : List ℚ) :
    ∀ v ∈ pbcRealnumber atomnumber dists, 0 ≤ v ∧ v < (atomnumber : ℤ) := by
  intro v hv
  rw [pbcRealnumber] at hv
  obtain ⟨j, _, rfl⟩ := List.mem_map.mp hv
  constructor
  · exact Int.emod_nonneg _ (by exact_mod_cast h0.ne.symm)
  · exact Int.emod_lt_of_pos _ (by exact_mod_cast h0)

/-- C7: the bond graph built by `_DetectLAMMPSdump._getbondfromcrd`
(`_detect.py:283-288`) is symmetric: whenever it returns, every atom's
neighbor list and bond-order list have equal length, and each bond
`(a, b, order)` is recorded as often as its reverse `(b, a, order)` —
given that the oracle's mol2 bond lines carry 1-based atom ids. -/
theorem C7_getbondfromcrd_symmetric (atomnumber : ℕ) (dists : List ℚ)
    (mol2lines : List String) (res : List (List ℤ) × List (List ℤ)) :
    0 < atomnumber →
    mol2IdsOK mol2lines →
    getbondfromcrdPBC atomnumber dists mol2lines = Except.ok res →
    (∀ i : ℕ, (res.1.getD i []).length = (res.2.getD i []).length) ∧
    (∀ a b : ℕ, ∀ l : ℤ,
      (pairsAt res a).count ((b : ℤ), l) = (pairsAt res b).count ((a : ℤ), l)) := by
  intro h0 hids hok
  have hs := mol2Loop_symm (pbcRealnumber_bounds h0 dists) mol2lines false _ res
    (SymmState_init atomnumber) hids hok
  exact ⟨hs.2.2.1, hs.2.2.2⟩

/-- C7, instantiated: a two-atom system with the single oracle bond
`1 2` of order 1 satisfies both symmetry conclusions. -/
theorem C7_witness :
    (∀ i : ℕ, ((([[1], [0]] : List (List ℤ)), ([[1], [1]] : List (List ℤ))).1.getD i []).length =
      ((([[1], [0]] : List (List ℤ)), ([[1], [1]] : List (List ℤ))).2.getD i []).length) ∧
    (∀ a b : ℕ, ∀ l : ℤ,
      (pairsAt (([[1], [0]] : List (List ℤ)), ([[1], [1]] : List (List ℤ))) a).count ((b : ℤ), l) =
      (pairsAt (([[1], [0]] : List (List ℤ)), ([[1], [1]] : List (List ℤ))) b).count ((a : ℤ), l)) := by
  refine C7_getbondfromcrd_symmetric 2 [] ["@<TRIPOS>BOND", "1 1 2 1"] _ (by decide) ?_ (by decide)
  intro line hline v hv
  rcases List.mem_cons.mp hline with rfl | hline2
  · rcases hv with hv | hv <;> exact Except.noConfusion hv
  rcases List.mem_cons.mp hline2 with rfl | hline3
  · rcases hv with hv | hv
    · rw [show pyInt ((pySplit "1 1 2 1").getD 1 "") = Except.ok 1 from by decide] at hv
      injection hv with h
      omega
    · rw [show pyInt ((pySplit "1 1 2 1").getD 2 "") = Except.ok 2 from by decide] at hv
      injection hv with h
      omega
  · simp at hline3
/-- C6: in the coordinate (dump-file) path, `_getbondfromcrd`
(`_detect.py:285-286`) records an aromatic (`ar`) oracle bond with order
12, an amide (`am`) bond with order 1, and any other bond with the
integer value of its order field; instantiated end to end, a two-atom
system records the mapped order at both endpoints of the bond. -/
theorem C6_bond_order_mapping :
    (∀ t : String, mol2Level t =
      if t = "ar" then Except.ok 12
      else if t = "am" then Except.ok 1 else pyInt t) ∧
    getbondfromcrdPBC 2 [] ["@<TRIPOS>BOND", "1 1 2 ar"] =
      Except.ok ([[1], [0]], [[12], [12]]) ∧
    getbondfromcrdPBC 2 [] ["@<TRIPOS>BOND", "1 1 2 am"] =
      Except.ok ([[1], [0]], [[1], [1]]) ∧
    getbondfromcrdPBC 2 [] ["@<TRIPOS>BOND", "1 1 2 2"] =
      Except.ok ([[1], [0]], [[2], [2]]) :=
  ⟨fun t => rfl, by decide, by decide, by decide⟩
lemma pyGet_pbcRealnumber {atomnumber : ℕ} {dists : List ℚ} {idx : ℤ} {k g : ℕ}
    (h0 : 0 ≤ idx) (hk : idx.toNat = k)
    (hg : (keptGhosts dists)[k]? = some g) (msg : String) :
    pyGet (pbcRealnumber atomnumber dists) idx msg =
      Except.ok ((g : ℤ) % (atomnumber : ℤ)) := by
  subst hk
  obtain ⟨hklt, hkeq⟩ := List.getElem?_eq_some_iff.mp hg
  have hlen : idx.toNat < (pbcRealnumber atomnumber dists).length := by
    simp only [pbcRealnumber, List.length_map]
    exact hklt
  rw [pyGet, dif_pos ⟨h0, hlen⟩]
  congr 1
  simp only [List.get_eq_getElem, pbcRealnumber, List.getElem_map]
  rw [hkeq]

/-- C2: with periodic boundaries, `_getbondfromcrd` (`_detect.py:240-289`)
keeps an image atom exactly when its distance to the nearest real atom is
below 5; a bond the oracle reports between two image atoms leaves the
bond graph unchanged; and a bond between a real atom and a kept image
atom is recorded exactly once between the two real atom indices, the
image endpoint being remapped to its repeated-atom index modulo the real
atom count — in both orientations of the mol2 bond line: the real
endpoint first and the image endpoint second (`elif s2 >= atomnumber`,
`_detect.py:281-282`), and the image endpoint first and the real endpoint
second (`elif s1 >= atomnumber`, `_detect.py:279-280`). -/
theorem C2_pbc_ghost_bonds (atomnumber : ℕ) (dists : List ℚ) :
    (∀ j : ℕ, j ∈ keptGhosts dists ↔ j < dists.length ∧ dists.getD j 0 < 5) ∧
    (∀ (realnumber : List ℤ) (st : List (List ℤ) × List (List ℤ))
       (s : List String) (v1 v2 : ℤ),
      3 < s.length →
      pyInt (s.getD 1 "") = Except.ok v1 →
      pyInt (s.getD 2 "") = Except.ok v2 →
      (atomnumber : ℤ) ≤ v1 - 1 → (atomnumber : ℤ) ≤ v2 - 1 →
      mol2BondLine atomnumber realnumber st s = Except.ok st) ∧
    (∀ (st : List (List ℤ) × List (List ℤ)) (s : List String)
       (v1 v2 : ℤ) (k g : ℕ) (lv : ℤ),
      st.1.length = atomnumber → st.2.length = atomnumber →
      3 < s.length →
      pyInt (s.getD 1 "") = Except.ok v1 →
      pyInt (s.getD 2 "") = Except.ok v2 →
      0 ≤ v1 - 1 → v1 - 1 < (atomnumber : ℤ) →
      (atomnumber : ℤ) ≤ v2 - 1 →
      (v2 - 1 - atomnumber).toNat = k →
      (keptGhosts dists)[k]? = some g →
      mol2Level (s.getD 3 "") = Except.ok lv →
      0 < atomnumber →
      mol2BondLine atomnumber (pbcRealnumber atomnumber dists) st s =
        Except.ok (recordPair st (v1 - 1).toNat ((g : ℤ) % (atomnumber : ℤ)).toNat lv) ∧
      ((∀ i : ℕ, (st.1.getD i []).length = (st.2.getD i []).length) →
       (v1 - 1).toNat ≠ ((g : ℤ) % (atomnumber : ℤ)).toNat →
       pairsAt (recordPair st (v1 - 1).toNat ((g : ℤ) % (atomnumber : ℤ)).toNat lv)
           (v1 - 1).toNat =
         pairsAt st (v1 - 1).toNat ++ [((g : ℤ) % (atomnumber : ℤ), lv)] ∧
       pairsAt (recordPair st (v1 - 1).toNat ((g : ℤ) % (atomnumber : ℤ)).toNat lv)
           ((g : ℤ) % (atomnumber : ℤ)).toNat =
         pairsAt st ((g : ℤ) % (atomnumber : ℤ)).toNat ++ [(((v1 - 1).toNat : ℤ), lv)])) ∧
    (∀ (st : List (List ℤ) × List (List ℤ)) (s : List String)
       (v1 v2 : ℤ) (k g : ℕ) (lv : ℤ),
      st.1.length = atomnumber → st.2.length = atomnumber →
      3 < s.length →
      pyInt (s.getD 1 "") = Except.ok v1 →
      pyInt (s.getD 2 "") = Except.ok v2 →
      (atomnumber : ℤ) ≤ v1 - 1 →
      0 ≤ v2 - 1 → v2 - 1 < (atomnumber : ℤ) →
      (v1 - 1 - atomnumber).toNat = k →
      (keptGhosts dists)[k]? = some g →
      mol2Level (s.getD 3 "") = Except.ok lv →
      0 < atomnumber →
      mol2BondLine atomnumber (pbcRealnumber atomnumber dists) st s =
        Except.ok (recordPair st ((g : ℤ) % (atomnumber : ℤ)).toNat (v2 - 1).toNat lv) ∧
      ((∀ i : ℕ, (st.1.getD i []).length = (st.2.getD i []).length) →
       ((g : ℤ) % (atomnumber : ℤ)).toNat ≠ (v2 - 1).toNat →
       pairsAt (recordPair st ((g : ℤ) % (atomnumber : ℤ)).toNat (v2 - 1).toNat lv)
           ((g : ℤ) % (atomnumber : ℤ)).toNat =
         pairsAt st ((g : ℤ) % (atomnumber : ℤ)).toNat ++ [((v2 - 1 : ℤ), lv)] ∧
       pairsAt (recordPair st ((g : ℤ) % (atomnumber : ℤ)).toNat (v2 - 1).toNat lv)
           (v2 - 1).toNat =
         pairsAt st (v2 - 1).toNat ++ [((g : ℤ) % (atomnumber : ℤ), lv)])) := by
  refine ⟨?_, ?_, ?_, ?_⟩
  · intro j
    rw [keptGhosts, List.mem_filter, List.mem_range]
    simp
  · intro realnumber st s v1 v2 hlen hv1 hv2 hc1 hc2
    rw [mol2BondLine, if_pos hlen, hv1]
    simp only [bind, Except.bind]
    rw [hv2]
    simp only [bind, Except.bind]
    rw [if_pos ⟨hc1, hc2⟩]
  · intro st s v1 v2 k g lv hst1 hst2 hlen hv1 hv2 hge hlt hc2 hkeq hg hlv h0
    have hrm0 : 0 ≤ (g : ℤ) % (atomnumber : ℤ) :=
      Int.emod_nonneg _ (by exact_mod_cast h0.ne.symm)
    have hrml : (g : ℤ) % (atomnumber : ℤ) < (atomnumber : ℤ) :=
      Int.emod_lt_of_pos _ (by exact_mod_cast h0)
    have hmain : mol2BondLine atomnumber (pbcRealnumber atomnumber dists) st s =
        Except.ok (recordPair st (v1 - 1).toNat ((g : ℤ) % (atomnumber : ℤ)).toNat lv) := by
      rw [mol2BondLine, if_pos hlen, hv1]
      try simp only [bind, Except.bind]
      rw [hv2]
      try simp only [bind, Except.bind]
      rw [if_neg (by omega : ¬ ((atomnumber : ℤ) ≤ v1 - 1 ∧ (atomnumber : ℤ) ≤ v2 - 1))]
      rw [if_neg (by omega : ¬ (atomnumber : ℤ) ≤ v1 - 1)]
      try simp only [bind, Except.bind]
      rw [if_neg (by omega : ¬ (atomnumber : ℤ) ≤ v1 - 1)]
      rw [if_pos hc2]
      rw [pyGet_pbcRealnumber (by omega) hkeq hg]
      try simp only [bind, Except.bind]
      rw [pyAppendAt_inrange hge (by omega)]
      try simp only [bind, Except.bind]
      rw [pyAppendAt_inrange hrm0 (by simp only [List.length_set]; omega)]
      try simp only [bind, Except.bind]
      rw [hlv]
      try simp only [bind, Except.bind]
      rw [pyAppendAt_inrange hge (by omega)]
      try simp only [bind, Except.bind]
      rw [pyAppendAt_inrange hrm0 (by simp only [List.length_set]; omega)]
      simp only [bind, Except.bind, Except.ok.injEq]
      rw [recordPair]
      rw [Int.toNat_of_nonneg hge, Int.toNat_of_nonneg hrm0]
    refine ⟨hmain, ?_⟩
    intro hplen hne
    have ha : (v1 - 1).toNat < atomnumber := by omega
    have hb : ((g : ℤ) % (atomnumber : ℤ)).toNat < atomnumber := by omega
    constructor
    · rw [pairsAt_recordPair hst1 hst2 hplen ha hb lv]
      rw [if_pos rfl, if_neg hne]
      rw [Int.toNat_of_nonneg hrm0]
      simp
    · rw [pairsAt_recordPair hst1 hst2 hplen ha hb lv]
      rw [if_neg (fun hh => hne hh.symm), if_pos rfl]
      simp
  · intro st s v1 v2 k g lv hst1 hst2 hlen hv1 hv2 hc1 hge2 hlt2 hkeq hg hlv h0
    have hrm0 : 0 ≤ (g : ℤ) % (atomnumber : ℤ) :=
      Int.emod_nonneg _ (by exact_mod_cast h0.ne.symm)
    have hrml : (g : ℤ) % (atomnumber : ℤ) < (atomnumber : ℤ) :=
      Int.emod_lt_of_pos _ (by exact_mod_cast h0)
    have hmain : mol2BondLine atomnumber (pbcRealnumber atomnumber dists) st s =
        Except.ok (recordPair st ((g : ℤ) % (atomnumber : ℤ)).toNat (v2 - 1).toNat lv) := by
      rw [mol2BondLine, if_pos hlen, hv1]
      try simp only [bind, Except.bind]
      rw [hv2]
      try simp only [bind, Except.bind]
      rw [if_neg (by omega : ¬ ((atomnumber : ℤ) ≤ v1 - 1 ∧ (atomnumber : ℤ) ≤ v2 - 1))]
      rw [if_pos hc1]
      rw [pyGet_pbcRealnumber (by omega) hkeq hg]
      try simp only [bind, Except.bind]
      rw [if_pos hc1]
      try simp only [bind, Except.bind]
      rw [pyAppendAt_inrange hrm0 (by omega)]
      try simp only [bind, Except.bind]
      rw [pyAppendAt_inrange hge2 (by simp only [List.length_set]; omega)]
      try simp only [bind, Except.bind]
      rw [hlv]
      try simp only [bind, Except.bind]
      rw [pyAppendAt_inrange hrm0 (by omega)]
      try simp only [bind, Except.bind]
      rw [pyAppendAt_inrange hge2 (by simp only [List.length_set]; omega)]
      simp only [bind, Except.bind, Except.ok.injEq]
      rw [recordPair]
      rw [Int.toNat_of_nonneg hrm0, Int.toNat_of_nonneg hge2]
    refine ⟨hmain, ?_⟩
    intro hplen hne
    have ha : ((g : ℤ) % (atomnumber : ℤ)).toNat < atomnumber := by omega
    have hb : (v2 - 1).toNat < atomnumber := by omega
    constructor
    · rw [pairsAt_recordPair hst1 hst2 hplen ha hb lv]
      rw [if_pos rfl, if_neg hne]
      rw [Int.toNat_of_nonneg hge2]
      simp
    · rw [pairsAt_recordPair hst1 hst2 hplen ha hb lv]
      rw [if_neg (fun hh => hne hh.symm), if_pos rfl]
      rw [Int.toNat_of_nonneg hrm0]
      simp
lemma abs_sub_toRat (d : Decimal) (a : ℤ) :
    |(a : ℚ) - d.toRat| = (|a * 10 ^ d.e - d.m| : ℤ) / ((10 : ℚ) ^ d.e) := by
  have hD : (0 : ℚ) < (10 : ℚ) ^ d.e := by positivity
  rw [Decimal.toRat]
  rw [show (a : ℚ) - (d.m : ℚ) / (10 : ℚ) ^ d.e =
      ((a * 10 ^ d.e - d.m : ℤ) : ℚ) / (10 : ℚ) ^ d.e from by
    field_simp]
  rw [abs_div, Int.cast_abs, abs_of_pos hD]

lemma nearest_int_core {m D f r z : ℤ} (hD : 0 < D) (hr0 : 0 ≤ r) (hrD : r < D)
    (hm : m = D * f + r) (c : ℤ)
    (hc : (2 * r ≤ D ∧ c = f) ∨ (D ≤ 2 * r ∧ c = f + 1)) :
    |c * D - m| ≤ |z * D - m| := by
  have hzf : z ≤ f ∨ f + 1 ≤ z := by omega
  rcases hc with ⟨hle, hceq⟩ | ⟨hge, hceq⟩ <;> rw [hceq] <;> rcases hzf with hz | hz
  · have h1 : z * D ≤ f * D := mul_le_mul_of_nonneg_right hz (by omega)
    rw [abs_of_nonpos (by nlinarith), abs_of_nonpos (by nlinarith)]
    nlinarith
  · have h2 : (f + 1) * D ≤ z * D := mul_le_mul_of_nonneg_right hz (by omega)
    rw [abs_of_nonpos (by nlinarith), abs_of_nonneg (by nlinarith)]
    nlinarith
  · have h1 : z * D ≤ f * D := mul_le_mul_of_nonneg_right hz (by omega)
    rw [abs_of_nonneg (by nlinarith), abs_of_nonpos (by nlinarith)]
    nlinarith
  · have h2 : (f + 1) * D ≤ z * D := mul_le_mul_of_nonneg_right hz (by omega)
    rw [abs_of_nonneg (by nlinarith), abs_of_nonneg (by nlinarith)]
    nlinarith

lemma pyRound_branch (d : Decimal) :
    (2 * (d.m % 10 ^ d.e) ≤ 10 ^ d.e ∧ pyRound d = d.m.fdiv (10 ^ d.e)) ∨
    (10 ^ d.e ≤ 2 * (d.m % 10 ^ d.e) ∧ pyRound d = d.m.fdiv (10 ^ d.e) + 1) := by
  have hD : (0 : ℤ) < 10 ^ d.e := by positivity
  have hfr : 10 ^ d.e * (d.m.fdiv (10 ^ d.e)) + d.m.fmod (10 ^ d.e) = d.m :=
    Int.fdiv_add_fmod d.m (10 ^ d.e)
  have hfm : d.m.fmod (10 ^ d.e) = d.m % (10 ^ d.e) :=
    Int.fmod_eq_emod d.m (le_of_lt hD)
  rw [hfm] at hfr
  have hkey : d.m - d.m.fdiv (10 ^ d.e) * 10 ^ d.e = d.m % 10 ^ d.e := by
    nlinarith [hfr]
  rw [pyRound]
  simp only [hkey]
  split_ifs with h1 h2 h3
  · exact Or.inl ⟨by omega, rfl⟩
  · exact Or.inr ⟨by omega, rfl⟩
  · exact Or.inl ⟨by omega, rfl⟩
  · exact Or.inr ⟨by omega, rfl⟩

lemma pyRound_nearest (d : Decimal) (z : ℤ) :
    |((pyRound d : ℤ) : ℚ) - d.toRat| ≤ |((z : ℤ) : ℚ) - d.toRat| := by
  have hD : (0 : ℤ) < 10 ^ d.e := by positivity
  have hfr : 10 ^ d.e * (d.m.fdiv (10 ^ d.e)) + d.m.fmod (10 ^ d.e) = d.m :=
    Int.fdiv_add_fmod d.m (10 ^ d.e)
  have hfm : d.m.fmod (10 ^ d.e) = d.m % (10 ^ d.e) :=
    Int.fmod_eq_emod d.m (le_of_lt hD)
  rw [hfm] at hfr
  have hr0 : 0 ≤ d.m % (10 ^ d.e) := Int.emod_nonneg _ (by omega)
  have hrD : d.m % (10 ^ d.e) < 10 ^ d.e := Int.emod_lt_of_pos _ hD
  rw [abs_sub_toRat, abs_sub_toRat,
    div_le_div_iff_of_pos_right (by positivity : (0:ℚ) < (10:ℚ) ^ d.e), Int.cast_le]
  exact nearest_int_core hD hr0 hrD hfr.symm (pyRound d) (pyRound_branch d)

/-- C5: in the bond-file path every bond-order field is parsed by
`max(1, round(float(x)))` (`_detect.py:153-154`), where `round` yields an
integer nearest to the field's decimal value (ties to even); in
particular the field `1.4` parses to bond order 1, as in the two-atom
scenario block, which stores order 1 for both atoms. -/
theorem C5_bond_order_parse :
    (∀ x : String, parseLevelToken x = (pyFloat x).map (fun d => max 1 (pyRound d))) ∧
    (∀ d : Decimal, ∀ z : ℤ,
      |((pyRound d : ℤ) : ℚ) - d.toRat| ≤ |((z : ℤ) : ℚ) - d.toRat|) ∧
    parseLevelToken "1.4" = Except.ok 1 ∧
    bondReadstepArrays 2 ["# Timestep 0", "1 1 1 2 0 1.4", "2 1 1 1 0 1.4"] =
      Except.ok ⟨[some [1], some [0]], [some [1], some [1]], some 0⟩ :=
  ⟨fun x => rfl, pyRound_nearest, by decide, by decide⟩
/-- C8: a malformed header fails the run before any worker is dispatched,
in both input formats: whenever the header scan errors, `_readinputfile`
returns that very error irrespective of the per-step reader (no timestep
block is ever handed to it); a dump file whose header lacks the
atom-count section fails naming `N`, and an `ITEM: ATOMS` header lacking
the `id` column fails naming `id`; a bond file whose header lacks the
`# Number of particles` line fails naming `N`, and one whose atom lines
precede that line fails naming `atomtype`, the local the missing count
left unassigned. -/
theorem C8_header_scan_fails_before_dispatch :
    (∀ (e : String) (lines : List String)
       (rsc1 rsc2 : ℕ × List ℤ × Option DumpCols → List String →
         Except String (List Bytes × ℤ)) (interval : ℕ),
      dumpReadNHeader lines = Except.error e →
      readinputfile dumpReadNHeader rsc1 interval lines = Except.error e ∧
      readinputfile dumpReadNHeader rsc1 interval lines =
        readinputfile dumpReadNHeader rsc2 interval lines) ∧
    dumpReadN ["ITEM: TIMESTEP", "0"] =
      Except.error "NameError: local variable N referenced before assignment" ∧
    dumpReadN ["ITEM: ATOMS type x y z"] =
      Except.error "ValueError: id is not in list" ∧
    (∀ (e : String) (lines : List String)
       (rsc1 rsc2 : ℕ × List ℤ → List String →
         Except String (List Bytes × ℤ)) (interval : ℕ),
      bondReadNHeader lines = Except.error e →
      readinputfile bondReadNHeader rsc1 interval lines = Except.error e ∧
      readinputfile bondReadNHeader rsc1 interval lines =
        readinputfile bondReadNHeader rsc2 interval lines) ∧
    bondReadN ["# Timestep 0", "# Particle connection table and bond orders"] =
      Except.error "NameError: local variable N referenced before assignment" ∧
    bondReadN ["# Timestep 0", "1 1 0"] =
      Except.error "NameError: local variable atomtype referenced before assignment" := by
  refine ⟨?_, by decide, by decide, ?_, by decide, by decide⟩
  · intro e lines rsc1 rsc2 interval herr
    have h1 : ∀ (rsc : ℕ × List ℤ × Option DumpCols → List String →
        Except String (List Bytes × ℤ)),
        readinputfile dumpReadNHeader rsc interval lines = Except.error e := by
      intro rsc
      rw [readinputfile, herr]
      rfl
    exact ⟨h1 rsc1, (h1 rsc1).trans (h1 rsc2).symm⟩
  · intro e lines rsc1 rsc2 interval herr
    have h1 : ∀ (rsc : ℕ × List ℤ → List String →
        Except String (List Bytes × ℤ)),
        readinputfile bondReadNHeader rsc interval lines = Except.error e := by
      intro rsc
      rw [readinputfile, herr]
      rfl
    exact ⟨h1 rsc1, (h1 rsc1).trans (h1 rsc2).symm⟩

/-- C8, instantiated: the dump header with no atom-count section and the
bond header with no `# Number of particles` line each abort the pipeline
with the `N` error for every step reader. -/
theorem C8_witness :
    (readinputfile dumpReadNHeader (fun _ _ => Except.ok ([], 0)) 1
        ["ITEM: TIMESTEP", "0"] =
      Except.error "NameError: local variable N referenced before assignment" ∧
    readinputfile dumpReadNHeader (fun _ _ => Except.ok ([], 0)) 1
        ["ITEM: TIMESTEP", "0"] =
      readinputfile dumpReadNHeader (fun _ _ => Except.error "other") 1
        ["ITEM: TIMESTEP", "0"]) ∧
    (readinputfile bondReadNHeader (fun _ _ => Except.ok ([], 0)) 1
        ["# Timestep 0", "# Particle connection table and bond orders"] =
      Except.error "NameError: local variable N referenced before assignment" ∧
    readinputfile bondReadNHeader (fun _ _ => Except.ok ([], 0)) 1
        ["# Timestep 0", "# Particle connection table and bond orders"] =
      readinputfile bondReadNHeader (fun _ _ => Except.error "other") 1
        ["# Timestep 0", "# Particle connection table and bond orders"]) :=
  ⟨C8_header_scan_fails_before_dispatch.1
    "NameError: local variable N referenced before assignment"
    ["ITEM: TIMESTEP", "0"] (fun _ _ => Except.ok ([], 0))
    (fun _ _ => Except.error "other") 1 (by decide),
   C8_header_scan_fails_before_dispatch.2.2.2.1
    "NameError: local variable N referenced before assignment"
    ["# Timestep 0", "# Particle connection table and bond orders"]
    (fun _ _ => Except.ok ([], 0))
    (fun _ _ => Except.error "other") 1 (by decide)⟩
lemma mapM_ok_cons {α β : Type} {f : α → Except String β} {x : α} {l : List α}
    {res : List β} (h : (x :: l).mapM f = Except.ok res) :
    ∃ b bs, f x = Except.ok b ∧ l.mapM f = Except.ok bs ∧ res = b :: bs := by
  rw [List.mapM_cons] at h
  cases hx : f x with
  | error e => rw [hx] at h; simp [bind, Except.bind] at h
  | ok b =>
      rw [hx] at h
      simp only [bind, Except.bind] at h
      cases hl : l.mapM f with
      | error e => rw [hl] at h; simp [bind, Except.bind] at h
      | ok bs =>
          rw [hl] at h
          simp only [bind, Except.bind, pure, Except.pure, Except.ok.injEq] at h
          exact ⟨b, bs, rfl, rfl, h.symm⟩

lemma mapM_ok_of_parts {α β : Type} {f : α → Except String β} {x : α} {l : List α}
    {b : β} {bs : List β} (hx : f x = Except.ok b) (hl : l.mapM f = Except.ok bs) :
    (x :: l).mapM f = Except.ok (b :: bs) := by
  rw [List.mapM_cons, hx]
  simp only [bind, Except.bind]
  rw [hl]
  rfl

lemma mapM_perm_ok {α β : Type} {f : α → Except String β} {l1 l2 : List α}
    (hp : l1.Perm l2) :
    ∀ {as1 : List β}, l1.mapM f = Except.ok as1 →
    ∃ as2, l2.mapM f = Except.ok as2 ∧ as1.Perm as2 := by
  induction hp with
  | nil =>
      intro as1 h
      exact ⟨as1, h, List.Perm.refl _⟩
  | cons x p ih =>
      intro as1 h
      obtain ⟨b, bs, hx, hl, rfl⟩ := mapM_ok_cons h
      obtain ⟨bs2, hl2, hperm⟩ := ih hl
      exact ⟨b :: bs2, mapM_ok_of_parts hx hl2, List.Perm.cons b hperm⟩
  | swap x y l =>
      intro as1 h
      obtain ⟨b1, bs1, hy, hl1, rfl⟩ := mapM_ok_cons h
      obtain ⟨b2, bs2, hx, hl2, rfl⟩ := mapM_ok_cons hl1
      exact ⟨b2 :: b1 :: bs2, mapM_ok_of_parts hx (mapM_ok_of_parts hy hl2),
        List.Perm.swap b2 b1 bs2⟩
  | trans p1 p2 ih1 ih2 =>
      intro as1 h
      obtain ⟨asm, hm, hp1⟩ := ih1 h
      obtain ⟨as2, h2, hp2⟩ := ih2 hm
      exact ⟨as2, h2, hp1.trans hp2⟩

lemma eq_of_perm_sorted_keys {β : Type} :
    ∀ {l1 l2 : List (ℤ × β)}, l1.Perm l2 →
    l1.Sorted (fun a b => a.1 ≤ b.1) → l2.Sorted (fun a b => a.1 ≤ b.1) →
    (l1.map Prod.fst).Nodup → l1 = l2 := by
  intro l1
  induction l1 with
  | nil =>
      intro l2 hp _ _ _
      exact List.Perm.nil_eq hp
  | cons a t1 ih =>
      intro l2 hp hs1 hs2 hnd
      cases l2 with
      | nil => exact absurd hp.symm (by simp)
      | cons b t2 =>
          rw [List.map_cons] at hnd
          obtain ⟨hnotin, hndt⟩ := List.nodup_cons.mp hnd
          by_cases hab : a = b
          · subst hab
            rw [ih (hp.cons_inv) (List.Sorted.of_cons hs1) (List.Sorted.of_cons hs2) hndt]
          · exfalso
            have hamem : a ∈ b :: t2 := hp.subset (List.mem_cons_self ..)
            have hbmem : b ∈ a :: t1 := hp.symm.subset (List.mem_cons_self ..)
            have hat2 : a ∈ t2 := by
              rcases List.mem_cons.mp hamem with h | h
              · exact absurd h hab
              · exact h
            have hbt1 : b ∈ t1 := by
              rcases List.mem_cons.mp hbmem with h | h
              · exact absurd h.symm hab
              · exact h
            have h1 : a.1 ≤ b.1 := (List.sorted_cons.mp hs1).1 b hbt1
            have h2 : b.1 ≤ a.1 := (List.sorted_cons.mp hs2).1 a hat2
            have heq : a.1 = b.1 := le_antisymm h1 h2
            exact hnotin (heq ▸ List.mem_map_of_mem Prod.fst hbt1)

lemma pySortedByFst_eq_of_perm {β : Type} {l1 l2 : List (ℤ × β)} (hp : l1.Perm l2)
    (hnd : (l1.map Prod.fst).Nodup) : pySortedByFst l1 = pySortedByFst l2 := by
  haveI : IsTotal (ℤ × β) (fun a b => a.1 ≤ b.1) := ⟨fun a b => le_total a.1 b.1⟩
  haveI : IsTrans (ℤ × β) (fun a b => a.1 ≤ b.1) := ⟨fun a b c h1 h2 => le_trans h1 h2⟩
  have hs1 := List.sorted_insertionSort (fun a b : ℤ × β => a.1 ≤ b.1) l1
  have hs2 := List.sorted_insertionSort (fun a b : ℤ × β => a.1 ≤ b.1) l2
  have hperm : (pySortedByFst l1).Perm (pySortedByFst l2) :=
    ((List.perm_insertionSort _ l1).trans hp).trans (List.perm_insertionSort _ l2).symm
  have hnd2 : ((pySortedByFst l1).map Prod.fst).Nodup := by
    refine (List.Perm.nodup_iff ?_).mpr hnd
    exact (List.perm_insertionSort _ l1).map Prod.fst
  exact eq_of_perm_sorted_keys hperm hs1 hs2 hnd2
lemma foldAtoms (atomname : List String) (cols : DumpCols) (step : ℕ) :
    ∀ (l : List String) (st : DumpStepState)
      (as : List (ℤ × (String × Decimal × Decimal × Decimal))),
    st.lastContent = some LineKind.ATOMS →
    (∀ line ∈ l, line ≠ "" ∧ pyStartsWith line "ITEM:" = false) →
    l.mapM (fun line => parseAtomLine atomname cols (pySplit line)) = Except.ok as →
    l.foldlM (dumpStepLine atomname cols step) st =
      Except.ok { st with atoms := st.atoms ++ as } := by
  intro l
  induction l with
  | nil =>
      intro st as _ _ hmap
      have : as = [] := by
        rw [List.mapM_nil] at hmap
        simpa [pure, Except.pure] using hmap.symm
      subst this
      simp [List.foldlM, pure, Except.pure]
  | cons line rest ih =>
      intro st as hlc hbody hmap
      obtain ⟨b, bs, hb, hbs, rfl⟩ := mapM_ok_cons hmap
      obtain ⟨hne, hni⟩ := hbody line (List.mem_cons_self ..)
      have hstep : dumpStepLine atomname cols step st line =
          Except.ok { st with atoms := st.atoms ++ [b] } := by
        rw [dumpStepLine, if_neg hne, if_neg (by simp [hni]), hlc, hb]
        rfl
      rw [List.foldlM_cons, hstep]
      simp only [bind, Except.bind]
      rw [ih { st with atoms := st.atoms ++ [b] } bs hlc
        (fun x hx => hbody x (List.mem_cons.mpr (Or.inr hx))) hbs]
      simp [List.append_assoc]

/-- C10: `_DetectLAMMPSdump._readstepfunc` (`_detect.py:213-238`) is
invariant under permutation of the atom body lines of a timestep block:
the parsed atoms are sorted by their id column before the atom set and
bond graph are built, so two blocks holding the same atom records (with
pairwise distinct ids) in any order yield the same molecules, whatever
the downstream bonding oracle computes. -/
theorem C10_dump_readstep_line_order_invariant {α : Type} (atomname : List String)
    (cols : DumpCols)
    (oracle : List (String × Decimal × Decimal × Decimal) → List Decimal →
      Except String α)
    (step : ℕ) (pre l1 l2 : List String) (hdr : String) (st0 : DumpStepState)
    (as1 : List (ℤ × (String × Decimal × Decimal × Decimal))) :
    l1.Perm l2 →
    pyStartsWith hdr "ITEM:" = true →
    linecontentOf hdr = LineKind.ATOMS →
    (∀ line ∈ l1, line ≠ "" ∧ pyStartsWith line "ITEM:" = false) →
    pre.foldlM (dumpStepLine atomname cols step) ⟨[], [], none, none⟩ = Except.ok st0 →
    l1.mapM (fun line => parseAtomLine atomname cols (pySplit line)) = Except.ok as1 →
    ((st0.atoms ++ as1).map Prod.fst).Nodup →
    dumpReadstep atomname cols oracle step (pre ++ hdr :: l1) =
      dumpReadstep atomname cols oracle step (pre ++ hdr :: l2) := by
  intro hperm hitem hcls hbody hpre hmap1 hnd
  obtain ⟨as2, hmap2, hpermAs⟩ := mapM_perm_ok hperm hmap1
  have hbody2 : ∀ line ∈ l2, line ≠ "" ∧ pyStartsWith line "ITEM:" = false :=
    fun line hl => hbody line (hperm.symm.subset hl)
  have hne : hdr ≠ "" := by
    intro h
    rw [h] at hitem
    exact absurd hitem (by decide)
  have hhdr : ∀ st : DumpStepState, dumpStepLine atomname cols step st hdr =
      Except.ok { st with lastContent := some (linecontentOf hdr) } := by
    intro st
    rw [dumpStepLine, if_neg hne, if_pos hitem]
  have hfold : ∀ (l : List String) as,
      (∀ line ∈ l, line ≠ "" ∧ pyStartsWith line "ITEM:" = false) →
      l.mapM (fun line => parseAtomLine atomname cols (pySplit line)) = Except.ok as →
      (pre ++ hdr :: l).foldlM (dumpStepLine atomname cols step) ⟨[], [], none, none⟩ =
        Except.ok { st0 with atoms := st0.atoms ++ as,
                             lastContent := some LineKind.ATOMS } := by
    intro l as hb hm
    rw [List.foldlM_append, hpre]
    simp only [bind, Except.bind]
    rw [List.foldlM_cons, hhdr st0]
    simp only [bind, Except.bind]
    rw [hcls]
    exact foldAtoms atomname cols step l _ as rfl hb hm
  rw [dumpReadstep, dumpReadstep, hfold l1 as1 hbody hmap1, hfold l2 as2 hbody2 hmap2]
  simp only [bind, Except.bind]
  have hpermFull : (st0.atoms ++ as1).Perm (st0.atoms ++ as2) :=
    List.Perm.append_left st0.atoms hpermAs
  by_cases hemp : (st0.atoms ++ as1).isEmpty = true
  · have hemp2 : (st0.atoms ++ as2).isEmpty = true := by
      rw [List.isEmpty_iff] at hemp ⊢
      exact List.Perm.eq_nil (hemp ▸ hpermFull.symm)
    rw [if_pos hemp, if_pos hemp2]
  · have hemp2 : ¬ (st0.atoms ++ as2).isEmpty = true := by
      rw [List.isEmpty_iff] at hemp ⊢
      intro h
      exact hemp (List.Perm.eq_nil (h ▸ hpermFull))
    rw [if_neg hemp, if_neg hemp2, pySortedByFst_eq_of_perm hpermFull hnd]
/-- C10, instantiated: a two-atom timestep block read with its atom lines
swapped yields the same result. -/
theorem C10_witness :
    dumpReadstep ["C"] ⟨0, 1, 2, 3, 4⟩ (fun _ _ => Except.ok (0 : ℕ)) 0
        (["ITEM: TIMESTEP", "0"] ++ "ITEM: ATOMS id type x y z" ::
          ["1 1 0.0 0.0 0.0", "2 1 1.0 0.0 0.0"]) =
      dumpReadstep ["C"] ⟨0, 1, 2, 3, 4⟩ (fun _ _ => Except.ok (0 : ℕ)) 0
        (["ITEM: TIMESTEP", "0"] ++ "ITEM: ATOMS id type x y z" ::
          ["2 1 1.0 0.0 0.0", "1 1 0.0 0.0 0.0"]) :=
  C10_dump_readstep_line_order_invariant ["C"] ⟨0, 1, 2, 3, 4⟩
    (fun _ _ => Except.ok (0 : ℕ)) 0 ["ITEM: TIMESTEP", "0"]
    ["1 1 0.0 0.0 0.0", "2 1 1.0 0.0 0.0"] ["2 1 1.0 0.0 0.0", "1 1 0.0 0.0 0.0"]
    "ITEM: ATOMS id type x y z" ⟨[], [], some (0, 0), some LineKind.TIMESTEP⟩
    [(1, ("C", ⟨0, 1⟩, ⟨0, 1⟩, ⟨0, 1⟩)), (2, ("C", ⟨10, 1⟩, ⟨0, 1⟩, ⟨0, 1⟩))]
    (by decide) (by decide) (by decide) (by decide) (by decide) (by decide) (by decide)
lemma mapM_congr {α β : Type} {f g : α → Except String β} :
    ∀ {l : List α}, (∀ x ∈ l, f x = g x) → l.mapM f = l.mapM g := by
  intro l
  induction l with
  | nil => intro _; rfl
  | cons x xs ih =>
      intro h
      rw [List.mapM_cons, List.mapM_cons, h x (List.mem_cons_self ..),
        ih (fun y hy => h y (List.mem_cons.mpr (Or.inr hy)))]

/-- C9: the step-interval filter of the pipeline (`_detect.py:80-82` with
the spec-modelled `run_mp`): a block is kept exactly when its index is
divisible by the interval, the pipeline's result depends only on the step
reader's behavior on kept blocks (skipped blocks are never parsed), and
with interval 2 over 4 one-line timesteps exactly the blocks 0 and 2 are
parsed and extracted. -/
theorem C9_step_interval :
    (∀ (nlines interval : ℕ) (lines : List String) (i : ℕ) (b : List String),
      (i, b) ∈ keptBlocks nlines interval lines ↔
        (i, b) ∈ (chunks nlines lines).enum ∧ i % interval = 0) ∧
    (∀ {η : Type} (readN : List String → Except String (ℕ × η))
       (rsc1 rsc2 : η → List String → Except String (List Bytes × ℤ))
       (interval : ℕ) (lines : List String) (nlines : ℕ) (hdr : η),
      readN lines = Except.ok (nlines, hdr) →
      (∀ p ∈ keptBlocks nlines interval lines, rsc1 hdr p.2 = rsc2 hdr p.2) →
      readinputfile readN rsc1 interval lines = readinputfile readN rsc2 interval lines) ∧
    keptBlocks 1 2 ["a", "b", "c", "d"] = [(0, ["a"]), (2, ["c"])] ∧
    (readinputfile (fun _ => Except.ok (1, ())) (fun _ _ => Except.ok ([[7]], 5)) 2
        ["a", "b", "c", "d"]).map (fun r => r.timestep) = Except.ok [(0, 5), (2, 5)] := by
  refine ⟨?_, ?_, by decide, by decide⟩
  · intro nlines interval lines i b
    rw [keptBlocks, List.mem_filter]
    simp
  · intro η readN rsc1 rsc2 interval lines nlines hdr hN hagree
    rw [readinputfile, readinputfile, hN]
    simp only [bind, Except.bind]
    rw [run_mp, run_mp, mapM_congr (fun p hp => by rw [hagree p hp])]
lemma mapM_ok_forall2 {α β : Type} {f : α → Except String β} :
    ∀ {l : List α} {res : List β}, l.mapM f = Except.ok res →
    List.Forall₂ (fun a b => f a = Except.ok b) l res := by
  intro l
  induction l with
  | nil =>
      intro res h
      rw [List.mapM_nil] at h
      obtain rfl : res = [] := by simpa [pure, Except.pure] using h.symm
      exact List.Forall₂.nil
  | cons x xs ih =>
      intro res h
      obtain ⟨b, bs, hx, hl, rfl⟩ := mapM_ok_cons h
      exact List.Forall₂.cons hx (ih hl)

lemma forall2_mem_right {A B : Type} {R : A → B → Prop} :
    ∀ {l1 : List A} {l2 : List B}, List.Forall₂ R l1 l2 →
    ∀ b ∈ l2, ∃ a ∈ l1, R a b := by
  intro l1 l2 h
  induction h with
  | nil => intro b hb; simp at hb
  | cons hR hF ih =>
      intro b hb
      rcases List.mem_cons.mp hb with rfl | hb2
      · exact ⟨_, List.mem_cons_self .., hR⟩
      · obtain ⟨a, ha, har⟩ := ih b hb2
        exact ⟨a, List.mem_cons.mpr (Or.inr ha), har⟩

lemma pairwise_transfer {A B : Type} (g1 : A → ℕ) (g2 : B → ℕ) :
    ∀ {l1 : List A} {l2 : List B}, List.Forall₂ (fun a b => g2 b = g1 a) l1 l2 →
    l1.Pairwise (fun x y => g1 x < g1 y) → l2.Pairwise (fun x y => g2 x < g2 y) := by
  intro l1 l2 hF
  induction hF with
  | nil => intro _; exact List.Pairwise.nil
  | cons hR hF2 ih =>
      intro hp
      obtain ⟨hhead, htail⟩ := List.pairwise_cons.mp hp
      refine List.Pairwise.cons ?_ (ih htail)
      intro y hy
      obtain ⟨a, ha, har⟩ := forall2_mem_right hF2 y hy
      rw [hR, har]
      exact hhead a ha

lemma pairwise_enumFrom_fst_lt {α : Type} :
    ∀ (l : List α) (n : ℕ), (l.enumFrom n).Pairwise (fun a b => a.1 < b.1) := by
  intro l
  induction l with
  | nil => intro n; exact List.Pairwise.nil
  | cons x xs ih =>
      intro n
      refine List.Pairwise.cons ?_ (ih (n + 1))
      intro y hy
      obtain ⟨i, v⟩ := y
      have := (List.mem_enumFrom hy).1
      show n < i
      omega

lemma keptBlocks_steps_pairwise (nlines interval : ℕ) (lines : List String) :
    (keptBlocks nlines interval lines).Pairwise (fun a b => a.1 < b.1) :=
  List.Pairwise.sublist (List.filter_sublist _)
    (pairwise_enumFrom_fst_lt (chunks nlines lines) 0)

lemma dAppend_inv {d : List (Bytes × List ℕ)} {s : ℕ}
    (h : ∀ p ∈ d, p.2.Sorted (· ≤ ·) ∧ ∀ x ∈ p.2, x ≤ s) (k : Bytes) :
    ∀ p ∈ dAppend d k s, p.2.Sorted (· ≤ ·) ∧ ∀ x ∈ p.2, x ≤ s := by
  intro p hp
  rw [dAppend] at hp
  split_ifs at hp with hc
  · obtain ⟨q, hq, rfl⟩ := List.mem_map.mp hp
    by_cases hqk : q.1 = k
    · rw [if_pos hqk]
      obtain ⟨hs, hb⟩ := h q hq
      constructor
      · rw [List.Sorted, List.pairwise_append]
        exact ⟨hs, List.sorted_singleton s, fun a ha b hb2 => by
          rw [List.mem_singleton.mp hb2]
          exact hb a ha⟩
      · intro x hx
        rcases List.mem_append.mp hx with hx1 | hx2
        · exact hb x hx1
        · rw [List.mem_singleton.mp hx2]
    · rw [if_neg hqk]
      exact h q hq
  · rcases List.mem_append.mp hp with hp1 | hp2
    · exact h p hp1
    · rw [List.mem_singleton.mp hp2]
      exact ⟨List.sorted_singleton s, fun x hx => by rw [List.mem_singleton.mp hx]⟩

lemma mergeStep_inv {s : ℕ} :
    ∀ (mols : List Bytes) (d : List (Bytes × List ℕ)),
    (∀ p ∈ d, p.2.Sorted (· ≤ ·) ∧ ∀ x ∈ p.2, x ≤ s) →
    ∀ p ∈ mergeStep d mols s, p.2.Sorted (· ≤ ·) ∧ ∀ x ∈ p.2, x ≤ s := by
  intro mols
  induction mols with
  | nil => intro d h; exact h
  | cons m rest ih =>
      intro d h
      exact ih (dAppend d m s) (dAppend_inv h m)

lemma mergeFold_sorted :
    ∀ (rs : List (List Bytes × (ℕ × ℤ))) (d : List (Bytes × List ℕ)) (bound : ℕ),
    (∀ p ∈ d, p.2.Sorted (· ≤ ·) ∧ ∀ x ∈ p.2, x ≤ bound) →
    rs.Pairwise (fun a b => a.2.1 < b.2.1) →
    (∀ r ∈ rs, bound ≤ r.2.1) →
    ∀ p ∈ rs.foldl (fun acc r => mergeStep acc r.1 r.2.1) d, p.2.Sorted (· ≤ ·) := by
  intro rs
  induction rs with
  | nil =>
      intro d bound h _ _ p hp
      exact (h p hp).1
  | cons r rest ih =>
      intro d bound h hpw hge
      obtain ⟨hhead, htail⟩ := List.pairwise_cons.mp hpw
      have hd2 : ∀ p ∈ mergeStep d r.1 r.2.1,
          p.2.Sorted (· ≤ ·) ∧ ∀ x ∈ p.2, x ≤ r.2.1 := by
        refine mergeStep_inv r.1 d ?_
        intro p hp
        obtain ⟨hs, hb⟩ := h p hp
        exact ⟨hs, fun x hx => le_trans (hb x hx) (hge r (List.mem_cons_self ..))⟩
      rw [List.foldl_cons]
      exact ih (mergeStep d r.1 r.2.1) r.2.1 hd2 htail
        (fun q hq => le_of_lt (hhead q hq))

/-- C3: for every molecule key of the final aggregation map, the list of
step indices is non-decreasing: the merge loop of `_readinputfile`
(`_detect.py:83-86`) folds the results in step order (the spec-modelled
`run_mp` re-sequences worker results by step index before the merge). -/
theorem C3_occurrence_lists_step_ascending {η : Type}
    (readN : List String → Except String (ℕ × η))
    (rsc : η → List String → Except String (List Bytes × ℤ))
    (interval : ℕ) (lines : List String) (res : DetectResult)
    (hok : readinputfile readN rsc interval lines = Except.ok res) :
    ∀ k l, (k, l) ∈ res.d → l.Sorted (· ≤ ·) := by
  intro k l hmem
  rw [readinputfile] at hok
  cases hN : readN lines with
  | error e => rw [hN] at hok; simp [bind, Except.bind] at hok
  | ok p =>
  obtain ⟨nlines, hdr⟩ := p
  rw [hN] at hok
  simp only [bind, Except.bind] at hok
  cases hR : run_mp nlines interval
      (fun step block => (rsc hdr block).map (fun p => (p.1, (step, p.2)))) lines with
  | error e => rw [hR] at hok; simp [bind, Except.bind] at hok
  | ok results =>
  rw [hR] at hok
  simp only [bind, Except.bind, Except.ok.injEq] at hok
  have hd : res.d = results.foldl (fun acc r => mergeStep acc r.1 r.2.1) [] := by
    rw [← hok]
  rw [run_mp] at hR
  have hF := mapM_ok_forall2 hR
  have hF2 : List.Forall₂ (fun (p : ℕ × List String)
      (r : List Bytes × ℕ × ℤ) => r.2.1 = p.1)
      (keptBlocks nlines interval lines) results := by
    refine List.Forall₂.imp ?_ hF
    intro a b hab
    cases hc : rsc hdr a.2 with
    | error e => rw [hc] at hab; simp [Except.map] at hab
    | ok q =>
        rw [hc] at hab
        simp only [Except.map, Except.ok.injEq] at hab
        rw [← hab]
  have hpw : results.Pairwise (fun a b => a.2.1 < b.2.1) :=
    pairwise_transfer (fun p : ℕ × List String => p.1)
      (fun r : List Bytes × ℕ × ℤ => r.2.1) hF2
      (keptBlocks_steps_pairwise nlines interval lines)
  have := mergeFold_sorted results [] 0 (by intro p hp; simp at hp) hpw
    (fun r _ => Nat.zero_le _) (k, l) (hd ▸ hmem)
  exact this

/-- C3, instantiated: a two-block run yields the ascending occurrence
list `[0, 1]` for the molecule key seen at both steps. -/
theorem C3_witness : ([0, 1] : List ℕ).Sorted (· ≤ ·) :=
  C3_occurrence_lists_step_ascending (fun _ => Except.ok (1, ()))
    (fun _ _ => Except.ok ([[7]], 3)) 1 ["a", "b"]
    ⟨[([7], [0, 1])], [(0, 3), (1, 3)], 1, 2⟩ (by decide) [7] [0, 1] (by decide)
lemma insertionSort_nat_eq_of_perm {l1 l2 : List ℕ} (hp : l1.Perm l2) :
    l1.insertionSort (· ≤ ·) = l2.insertionSort (· ≤ ·) :=
  List.eq_of_perm_of_sorted
    (((List.perm_insertionSort _ l1).trans hp).trans (List.perm_insertionSort _ l2).symm)
    (List.sorted_insertionSort _ l1) (List.sorted_insertionSort _ l2)

/-- C4: the pipeline is deterministic: the whole detection run is a pure
function of the input lines and configuration (two runs are literally
equal), and the canonical key `_connectmolecule` builds — the encoded
atom list joined by a space byte to the encoded bond list — is invariant
under the order in which the molecule's atoms and bonds were discovered
(the spec-modelled `listtobytes` sorts before the fixed-width encoding). -/
theorem C4_deterministic_canonical_keys :
    (∀ {η : Type} (readN : List String → Except String (ℕ × η))
       (rsc : η → List String → Except String (List Bytes × ℤ))
       (interval : ℕ) (lines : List String),
      readinputfile readN rsc interval lines = readinputfile readN rsc interval lines) ∧
    (∀ mol mol2 bl bl2 : List ℕ, mol.Perm mol2 → bl.Perm bl2 →
      listtobytes mol ++ [32] ++ listtobytes bl =
        listtobytes mol2 ++ [32] ++ listtobytes bl2) := by
  constructor
  · intro η readN rsc interval lines
    rfl
  · intro mol mol2 bl bl2 h1 h2
    rw [listtobytes, listtobytes, listtobytes, listtobytes,
      insertionSort_nat_eq_of_perm h1, insertionSort_nat_eq_of_perm h2]
